import Mathlib

/-!
# meowhw: six variants of a file-to-stdout copy (`mycat1.c` … `mycat6.c`)

A shallow embedding of the six `main` functions and of `align_alloc` / `align_free`.

* The operating system is an explicit environment `Env`: every system or library call made
  by `main` is answered by a field of `Env`.
* The target is LP64 Linux: `long`, `size_t`, `ssize_t`, `uintptr_t` and `void *` are 64 bits
  wide. Unsigned arithmetic is `Nat` arithmetic modulo `2^64`; a `long` is an `Int`, and its
  conversion to an unsigned type is `toU64`.
* The `while` loop of `main` may run for ever (the source may be endless), so it is run with
  a fuel: the number of iterations still allowed. A run that used up its fuel reports the
  events so far and no exit status.
-/

namespace Meowhw

/-! ## Machine integers and memory -/

/-- The number of values of a 64-bit word, `2^64`. -/
def WORD : Nat := 18446744073709551616

/-- Conversion of a `long` to `size_t` / `uintptr_t`: the value modulo `2^64`. -/
def toU64 (x : Int) : Nat := (x % 18446744073709551616).toNat

/-- Bitwise complement `~x` of a two's complement `long`. -/
def lnot (x : Int) : Int := -x - 1

/-- The value of `sizeof(void *)`. -/
def PTR_SIZE : Nat := 8

/-- The value of `EXIT_FAILURE`. -/
def EXIT_FAILURE : Nat := 1

/-- Byte-addressed memory: the byte held at each address. -/
abbrev Mem := Nat → Nat

/-- Store of one byte. -/
def storeByte (mem : Mem) (addr val : Nat) : Mem :=
  fun x => if x = addr then val % 256 else mem x

/-- Store of a 64-bit word (little-endian) at `addr`, as `*ptr_store = original_ptr` does. -/
def store64 (mem : Mem) (addr v : Nat) : Mem :=
  (List.range 8).foldl (fun m i => storeByte m ((addr + i) % WORD) (v / 256 ^ i)) mem

/-- Load of a 64-bit word (little-endian) from `addr`, as `*ptr_store` does. -/
def load64 (mem : Mem) (addr : Nat) : Nat :=
  ((List.range 8).map (fun i => mem ((addr + i) % WORD) * 256 ^ i)).sum

/-- A byte store `*(char *)addr = val` made by the program after the allocation. -/
structure Store where
  addr : Nat
  val : Nat

/-- The memory after a sequence of byte stores, the first of the list performed first. -/
def applyStores (mem : Mem) (stores : List Store) : Mem :=
  stores.foldl (fun m s => storeByte m s.addr s.val) mem

/-! ## `align_alloc` and `align_free` (identical in `mycat3.c` … `mycat6.c`) -/

/-- What a call of `align_alloc` did: the pointer it returned (`0` is `NULL`), the byte count
it passed to `malloc`, the pointer `malloc` gave back, and the memory afterwards. -/
structure AlignAlloc where
  ret : Nat
  req : Nat
  base : Nat
  mem : Mem

/-- Embedding of `char* align_alloc(size_t size)`. `sysconf` is the result of
`sysconf(_SC_PAGESIZE)`, `malloc` answers the allocation request (`0` is `NULL`). -/
def align_alloc (sysconf : Int) (malloc : Nat → Nat) (mem : Mem) (size : Nat) : AlignAlloc :=
  let page_size : Int := if sysconf = -1 then 4096 else sysconf
  let req := (size + toU64 page_size) % WORD
  let original_ptr := malloc req % WORD
  if original_ptr = 0 then
    ⟨0, req, original_ptr, mem⟩
  else
    let aligned_addr := (original_ptr + toU64 page_size) % WORD
    let aligned_addr := aligned_addr &&& toU64 (lnot (page_size - 1))
    let aligned_addr :=
      if aligned_addr < original_ptr then (aligned_addr + toU64 page_size) % WORD
      else aligned_addr
    let ptr_store := (aligned_addr + WORD - PTR_SIZE) % WORD
    ⟨aligned_addr, req, original_ptr, store64 mem ptr_store original_ptr⟩

/-- Embedding of `void align_free(void* ptr)`: the list of pointers passed to `free`. -/
def align_free (mem : Mem) (ptr : Nat) : List Nat :=
  if ptr = 0 then []
  else
    let ptr_store := (ptr + WORD - PTR_SIZE) % WORD
    let original_ptr := load64 mem ptr_store
    [original_ptr]

/-! ## The environment and the events of a run -/

/-- The answers of the operating system and of the C library to the calls made by `main`.
`read k count` answers the `k`-th call of `read` (counted from 0) made with buffer length
`count`: `none` is the error return `-1`, `some c` delivers the bytes `c`. `write k data`
is the return value of the `k`-th call of `write`, made with the bytes `data`. -/
structure Env where
  argc : Int
  openRet : Int
  posix_fadvise : Int
  sysconf : Int
  sysconfAlloc : Int
  fstat : Int
  st_blksize : Int
  malloc : Nat → Nat
  mem : Mem
  read : Nat → Nat → Option (List Nat)
  write : Nat → List Nat → Int

/-- The calls of `main` that concern the buffer and the source handle. `alloc size ptr` is
`malloc(size)` (mycat2) or `align_alloc(size)` (mycat3 … mycat6) returning `ptr`;
`release ptr` is `free(ptr)` or `align_free(ptr)`; `close` is `close(fd)`. -/
inductive Event where
  | alloc (size : Nat) (ptr : Nat)
  | read (count : Nat) (ret : Int)
  | write (data : List Nat) (ret : Int)
  | release (ptr : Nat)
  | close
  deriving DecidableEq

/-- The outcome of a run with a given fuel: the events in order, and the exit status
(`none` while the loop is still running when the fuel is used up). -/
structure Result where
  trace : List Event
  exit : Option Nat
  deriving DecidableEq

/-- The `read` system call on the source: at most `count` bytes are delivered. -/
def sys_read (env : Env) (k count : Nat) : Option (List Nat) :=
  (env.read k count).map (List.take count)

/-- The return value of `read`: `-1` on error, else the number of bytes delivered. -/
def readRet : Option (List Nat) → Int
  | none => -1
  | some c => (c.length : Int)

/-- The bytes that `read` placed at the start of the buffer. -/
def readData : Option (List Nat) → List Nat
  | none => []
  | some c => c

/-- How the `while` loop was left: its condition `read(...) > 0` was false with the given
`bytes_read`, or the `write` in its body did not return `bytes_read`. -/
inductive LoopEnd where
  | condFalse (bytes_read : Int)
  | writeFailed
  deriving DecidableEq

/-- The loop `while ((bytes_read = read(fd, buffer, count)) > 0) { if (write(STDOUT_FILENO,
buffer, bytes_read) != bytes_read) {...exit...} }` of mycat2 … mycat6, from its `k`-th
iteration on: the events, and how the loop was left (`none` when the fuel ran out). -/
def transfer (env : Env) (count : Nat) : Nat → Nat → List Event × Option LoopEnd
  | 0, _ => ([], none)
  | fuel + 1, k =>
    let r := sys_read env k count
    let bytes_read := readRet r
    if bytes_read > 0 then
      let w := env.write k (readData r)
      if w ≠ bytes_read then
        ([Event.read count bytes_read, Event.write (readData r) w], some LoopEnd.writeFailed)
      else
        let rest := transfer env count fuel (k + 1)
        (Event.read count bytes_read :: Event.write (readData r) w :: rest.1, rest.2)
    else
      ([Event.read count bytes_read], some (LoopEnd.condFalse bytes_read))

/-- The part of `main` in mycat2 … mycat6 from the loop to the end: on a failed `write`
release, close, `exit(EXIT_FAILURE)`; after the loop the same when `bytes_read == -1`;
otherwise release, close, `return 0`. `pre` are the events before the loop. -/
def finish (pre : List Event) (buffer : Nat) (lp : List Event × Option LoopEnd) : Result :=
  match lp.2 with
  | none => ⟨pre ++ lp.1, none⟩
  | some LoopEnd.writeFailed =>
    ⟨pre ++ lp.1 ++ [Event.release buffer, Event.close], some EXIT_FAILURE⟩
  | some (LoopEnd.condFalse bytes_read) =>
    if bytes_read = -1 then
      ⟨pre ++ lp.1 ++ [Event.release buffer, Event.close], some EXIT_FAILURE⟩
    else
      ⟨pre ++ lp.1 ++ [Event.release buffer, Event.close], some 0⟩

/-! ## The six `main` functions -/

namespace mycat1

/-- The loop `while (read(fd, &c, 1) > 0) { if (write(STDOUT_FILENO, &c, 1) != 1) {...exit...} }`
of mycat1, from its `k`-th iteration on. The byte written is the one in `c`. -/
def loop (env : Env) : Nat → Nat → List Event × Option LoopEnd
  | 0, _ => ([], none)
  | fuel + 1, k =>
    let r := sys_read env k 1
    if readRet r > 0 then
      let w := env.write k ((readData r).take 1)
      if w ≠ 1 then
        ([Event.read 1 (readRet r), Event.write ((readData r).take 1) w],
          some LoopEnd.writeFailed)
      else
        let rest := loop env fuel (k + 1)
        (Event.read 1 (readRet r) :: Event.write ((readData r).take 1) w :: rest.1, rest.2)
    else
      ([Event.read 1 (readRet r)], some (LoopEnd.condFalse (readRet r)))

/-- Embedding of `main` of `mycat1.c`. Nothing is tested after the loop: whatever made the
loop condition false, the handle is closed and `main` returns 0. -/
def main (env : Env) (fuel : Nat) : Result :=
  if env.argc ≠ 2 then ⟨[], some EXIT_FAILURE⟩
  else if env.openRet = -1 then ⟨[], some EXIT_FAILURE⟩
  else
    let lp := loop env fuel 0
    match lp.2 with
    | none => ⟨lp.1, none⟩
    | some LoopEnd.writeFailed => ⟨lp.1 ++ [Event.close], some EXIT_FAILURE⟩
    | some (LoopEnd.condFalse _) => ⟨lp.1 ++ [Event.close], some 0⟩

end mycat1

namespace mycat2

/-- Embedding of `main` of `mycat2.c`: buffer of `page_size` bytes from `malloc`. -/
def main (env : Env) (fuel : Nat) : Result :=
  if env.argc ≠ 2 then ⟨[], some EXIT_FAILURE⟩
  else if env.openRet = -1 then ⟨[], some EXIT_FAILURE⟩
  else
    let page_size := env.sysconf
    if page_size = -1 then ⟨[Event.close], some EXIT_FAILURE⟩
    else
      let buffer := env.malloc (toU64 page_size) % WORD
      if buffer = 0 then
        ⟨[Event.alloc (toU64 page_size) buffer, Event.close], some EXIT_FAILURE⟩
      else
        finish [Event.alloc (toU64 page_size) buffer] buffer
          (transfer env (toU64 page_size) fuel 0)

end mycat2

namespace mycat3

/-- Embedding of `main` of `mycat3.c`: buffer of `page_size` bytes from `align_alloc`. -/
def main (env : Env) (fuel : Nat) : Result :=
  if env.argc ≠ 2 then ⟨[], some EXIT_FAILURE⟩
  else if env.openRet = -1 then ⟨[], some EXIT_FAILURE⟩
  else
    let page_size := env.sysconf
    if page_size = -1 then ⟨[Event.close], some EXIT_FAILURE⟩
    else
      let buffer := (align_alloc env.sysconfAlloc env.malloc env.mem (toU64 page_size)).ret
      if buffer = 0 then
        ⟨[Event.alloc (toU64 page_size) buffer, Event.close], some EXIT_FAILURE⟩
      else
        finish [Event.alloc (toU64 page_size) buffer] buffer
          (transfer env (toU64 page_size) fuel 0)

end mycat3

namespace mycat4

/-- The definition `#define MAX(x, y) ((x) > (y) ? (x) : (y))`, on `long` operands. -/
def MAX (x y : Int) : Int := if x > y then x else y

/-- The computation of `buffer_size` in `main` of `mycat4.c` (lines 101 to 106). In C a
`page_size` of 0 divides by zero; here `x % 0 = x` and `x / 0 = 0`. -/
def buffer_size (page_size fs_block_size : Int) : Nat :=
  let buffer_size := toU64 (MAX page_size fs_block_size)
  if buffer_size % toU64 page_size ≠ 0 then
    ((buffer_size / toU64 page_size + 1) * toU64 page_size) % WORD
  else buffer_size

/-- Embedding of `main` of `mycat4.c`: buffer sized from the page size and `st_blksize`. -/
def main (env : Env) (fuel : Nat) : Result :=
  if env.argc ≠ 2 then ⟨[], some EXIT_FAILURE⟩
  else if env.openRet = -1 then ⟨[], some EXIT_FAILURE⟩
  else
    let page_size := env.sysconf
    if page_size = -1 then ⟨[Event.close], some EXIT_FAILURE⟩
    else if env.fstat = -1 then ⟨[Event.close], some EXIT_FAILURE⟩
    else
      let fs_block_size := env.st_blksize
      let buffer_size := buffer_size page_size fs_block_size
      let buffer := (align_alloc env.sysconfAlloc env.malloc env.mem buffer_size).ret
      if buffer = 0 then
        ⟨[Event.alloc buffer_size buffer, Event.close], some EXIT_FAILURE⟩
      else
        finish [Event.alloc buffer_size buffer] buffer (transfer env buffer_size fuel 0)

end mycat4

namespace mycat5

/-- Embedding of `main` of `mycat5.c`: `optimal_buffer_size = 32768`. -/
def main (env : Env) (fuel : Nat) : Result :=
  if env.argc ≠ 2 then ⟨[], some EXIT_FAILURE⟩
  else if env.openRet = -1 then ⟨[], some EXIT_FAILURE⟩
  else
    let page_size := env.sysconf
    if page_size = -1 then ⟨[Event.close], some EXIT_FAILURE⟩
    else if env.fstat = -1 then ⟨[Event.close], some EXIT_FAILURE⟩
    else
      let optimal_buffer_size := 32768
      let buffer := (align_alloc env.sysconfAlloc env.malloc env.mem optimal_buffer_size).ret
      if buffer = 0 then
        ⟨[Event.alloc optimal_buffer_size buffer, Event.close], some EXIT_FAILURE⟩
      else
        finish [Event.alloc optimal_buffer_size buffer] buffer
          (transfer env optimal_buffer_size fuel 0)

end mycat5

namespace mycat6

/-- Embedding of `main` of `mycat6.c`: the result of `posix_fadvise` is tested and then
ignored (the body of the `if` is empty); `optimal_buffer_size = 65536`. -/
def main (env : Env) (fuel : Nat) : Result :=
  if env.argc ≠ 2 then ⟨[], some EXIT_FAILURE⟩
  else if env.openRet = -1 then ⟨[], some EXIT_FAILURE⟩
  else
    let _hint := if env.posix_fadvise ≠ 0 then () else ()
    let page_size := env.sysconf
    if page_size = -1 then ⟨[Event.close], some EXIT_FAILURE⟩
    else if env.fstat = -1 then ⟨[Event.close], some EXIT_FAILURE⟩
    else
      let optimal_buffer_size := 65536
      let buffer := (align_alloc env.sysconfAlloc env.malloc env.mem optimal_buffer_size).ret
      if buffer = 0 then
        ⟨[Event.alloc optimal_buffer_size buffer, Event.close], some EXIT_FAILURE⟩
      else
        finish [Event.alloc optimal_buffer_size buffer] buffer
          (transfer env optimal_buffer_size fuel 0)

end mycat6

/-- The six programs. -/
inductive Variant where
  | v1 | v2 | v3 | v4 | v5 | v6
  deriving DecidableEq

/-- The run of a variant in an environment with a fuel. -/
def run : Variant → Env → Nat → Result
  | Variant.v1 => mycat1.main
  | Variant.v2 => mycat2.main
  | Variant.v3 => mycat3.main
  | Variant.v4 => mycat4.main
  | Variant.v5 => mycat5.main
  | Variant.v6 => mycat6.main

/-! ## Observations on a trace -/

/-- The bytes that reached standard output: of each `write`, as many of its bytes as its
return value says (none on `-1`). -/
def stdout : List Event → List Nat
  | [] => []
  | Event.write data ret :: t => data.take ret.toNat ++ stdout t
  | _ :: t => stdout t

/-- Number of `read` calls in a trace. -/
def readCalls (t : List Event) : Nat :=
  (t.filter (fun e => match e with | Event.read _ _ => true | _ => false)).length

/-- Number of `read` calls of a trace that returned a positive count. -/
def dataReads (t : List Event) : Nat :=
  (t.filter (fun e => match e with | Event.read _ ret => decide (0 < ret) | _ => false)).length

/-- Number of `write` calls in a trace. -/
def writeCalls (t : List Event) : Nat :=
  (t.filter (fun e => match e with | Event.write _ _ => true | _ => false)).length

/-- Says whether an event is a `read` or a `write`. -/
def Event.isReadWrite : Event → Bool
  | Event.read _ _ => true
  | Event.write _ _ => true
  | _ => false

/-- Says whether an event is a release of the buffer or a close of the handle. -/
def Event.isCleanup : Event → Bool
  | Event.release _ => true
  | Event.close => true
  | _ => false

/-- The buffer that a trace allocated: the pointer of its first successful `alloc`. -/
def allocated : List Event → Option Nat
  | [] => none
  | Event.alloc _ ptr :: t => if ptr = 0 then allocated t else some ptr
  | _ :: t => allocated t

/-- The cleanup that must end a run: release of the buffer if one was allocated, then close. -/
def cleanup : Option Nat → List Event
  | none => [Event.close]
  | some ptr => [Event.release ptr, Event.close]

/-- The offset of the source before the `k`-th `read` with buffer length `count`: the number
of bytes delivered by the earlier calls. -/
def filePos (env : Env) (count : Nat) : Nat → Nat
  | 0 => 0
  | k + 1 => filePos env count k + (readData (sys_read env k count)).length

/-- The buffer length that a variant passes to `read`. -/
def bufSize : Variant → Env → Nat
  | Variant.v1, _ => 1
  | Variant.v2, env => toU64 env.sysconf
  | Variant.v3, env => toU64 env.sysconf
  | Variant.v4, env => mycat4.buffer_size env.sysconf env.st_blksize
  | Variant.v5, _ => 32768
  | Variant.v6, _ => 65536

/-- The pointer that a variant obtains for its buffer (`0` is `NULL`); mycat1 has the
variable `c` and allocates nothing. -/
def bufPtr : Variant → Env → Option Nat
  | Variant.v1, _ => none
  | Variant.v2, env => some (env.malloc (toU64 env.sysconf) % WORD)
  | v, env => some (align_alloc env.sysconfAlloc env.malloc env.mem (bufSize v env)).ret

/-- The steps of `main` before the loop all succeed: one argument, the source opens, and, in
the variants that have the step, the page-size query, `fstat` and the allocation succeed. -/
def reachesLoop (v : Variant) (env : Env) : Prop :=
  env.argc = 2 ∧ env.openRet ≠ -1 ∧
  (v ≠ Variant.v1 → env.sysconf ≠ -1) ∧
  ((v = Variant.v4 ∨ v = Variant.v5 ∨ v = Variant.v6) → env.fstat ≠ -1) ∧
  bufPtr v env ≠ some 0

/-- The source holds the bytes `F` and `read` behaves as on a regular file: with `r > 0`
bytes remaining it delivers the next `n` bytes for some `1 ≤ n ≤ min count r`, and with
nothing remaining it returns 0. -/
def ReadsFile (env : Env) (count : Nat) (F : List Nat) : Prop :=
  ∀ k,
    (filePos env count k < F.length →
      ∃ n, 1 ≤ n ∧ n ≤ min count (F.length - filePos env count k) ∧
        sys_read env k count = some ((F.drop (filePos env count k)).take n)) ∧
    (F.length ≤ filePos env count k → sys_read env k count = some [])

/-- Every `write` transfers all the bytes it is given. -/
def WritesAll (env : Env) : Prop :=
  ∀ k data, env.write k data = (data.length : Int)

/-- An environment in which everything succeeds: the source holds `F`, each `read` delivers
as many bytes as fit the buffer, each `write` is complete, the page size and the block size
are 4096 and `malloc` returns the address `0x10000`. -/
def fileEnv (F : List Nat) : Env :=
  ⟨2, 3, 0, 4096, 4096, 0, 4096, fun _ => 65536, fun _ => 0,
    fun k count => some ((F.drop (k * count)).take count),
    fun _ data => (data.length : Int)⟩


/-- The quotient `a / b` rounded up. -/
def ceilDiv (a b : Nat) : Nat := (a + b - 1) / b

/-- The source holds the bytes `F` and each `read` delivers as many of the remaining bytes
as the buffer holds: `min count r` bytes when `r` remain. -/
def ReadsFull (env : Env) (count : Nat) (F : List Nat) : Prop :=
  ∀ k, sys_read env k count = some ((F.drop (filePos env count k)).take count)


/-- The shape shared by the six programs once the loop is reached: `pre` are the events
before the loop, `post` the cleanup calls, `strict` says whether `bytes_read == -1` is tested
after the loop (mycat2 … mycat6) or not (mycat1). -/
def loopTail (strict : Bool) (pre post : List Event) (lp : List Event × Option LoopEnd) :
    Result :=
  match lp.2 with
  | none => ⟨pre ++ lp.1, none⟩
  | some LoopEnd.writeFailed => ⟨pre ++ lp.1 ++ post, some 1⟩
  | some (LoopEnd.condFalse r) =>
    ⟨pre ++ lp.1 ++ post, some (if strict = true ∧ r = -1 then 1 else 0)⟩


/-- An environment like `fileEnv [65, 66, 67]` in which the first `write` is short: it
returns 2 whatever it is given. -/
def shortWriteEnv : Env :=
  ⟨2, 3, 0, 4096, 4096, 0, 4096, fun _ => 65536, fun _ => 0,
    fun k count => some ((([65, 66, 67] : List Nat).drop (k * count)).take count),
    fun k data => if k = 0 then 2 else (data.length : Int)⟩

/-- An environment in which the first two `read` calls deliver the byte 65 and the third
fails with `-1`; everything else succeeds. -/
def readErrEnv : Env :=
  ⟨2, 3, 0, 4096, 4096, 0, 4096, fun _ => 65536, fun _ => 0,
    fun k _ => if k < 2 then some [65] else none,
    fun _ data => (data.length : Int)⟩


/-- An environment like `fileEnv [65, 66, 67]` in which every page-size query fails:
`sysconf(_SC_PAGESIZE)` returns `-1` in `main` and in `align_alloc`. -/
def noPageSizeEnv : Env :=
  ⟨2, 3, 0, -1, -1, 0, 4096, fun _ => 65536, fun _ => 0,
    fun k count => some ((([65, 66, 67] : List Nat).drop (k * count)).take count),
    fun _ data => (data.length : Int)⟩

/-- The environment `env` with another answer to the page-size query of `align_alloc`. -/
def withAllocPageSize (env : Env) (r : Int) : Env :=
  ⟨env.argc, env.openRet, env.posix_fadvise, env.sysconf, r, env.fstat, env.st_blksize,
    env.malloc, env.mem, env.read, env.write⟩


/-- An environment like `fileEnv [65, 66, 67]` in which the page-size query of `main`
succeeds (4096) and the one made inside `align_alloc` fails (`-1`). -/
def allocFallbackEnv : Env :=
  ⟨2, 3, 0, 4096, -1, 0, 4096, fun _ => 65536, fun _ => 0,
    fun k count => some ((([65, 66, 67] : List Nat).drop (k * count)).take count),
    fun _ data => (data.length : Int)⟩

/-! ## Lemmas on the loop -/

theorem readRet_some (c : List Nat) : readRet (some c) = (c.length : Int) := rfl

theorem readRet_pos_iff (r : Option (List Nat)) :
    0 < readRet r ↔ ∃ c, r = some c ∧ 0 < c.length := by
  cases r with
  | none => simp [readRet]
  | some c => simp [readRet]

theorem mycat1_loop_eq_transfer (env : Env) (fuel k : Nat) :
    mycat1.loop env fuel k = transfer env 1 fuel k := by
  induction fuel generalizing k with
  | zero => rfl
  | succ n ih =>
    unfold mycat1.loop transfer
    rw [ih]
    cases h : env.read k 1 with
    | none => simp [sys_read, h, readRet, readData]
    | some c =>
      cases c with
      | nil => simp [sys_read, h, readRet, readData]
      | cons a t => simp [sys_read, h, readRet, readData]

theorem transfer_isReadWrite (env : Env) (count fuel k : Nat) :
    ∀ e ∈ (transfer env count fuel k).1, e.isReadWrite = true := by
  induction fuel generalizing k with
  | zero => simp [transfer]
  | succ n ih =>
    unfold transfer
    intro e he
    simp only at he
    split at he
    · split at he
      · simp at he
        rcases he with rfl | rfl <;> rfl
      · simp at he
        rcases he with rfl | rfl | he
        · rfl
        · rfl
        · exact ih _ e he
    · simp at he
      subst he
      rfl

theorem filePos_le (env : Env) (count : Nat) (F : List Nat) (h : ReadsFile env count F)
    (k : Nat) : filePos env count k ≤ F.length := by
  induction k with
  | zero => simp [filePos]
  | succ k ih =>
    simp only [filePos]
    rcases Nat.lt_or_ge (filePos env count k) F.length with hlt | hge
    · obtain ⟨n, _, hn, hr⟩ := (h k).1 hlt
      rw [hr]
      simp [readData]
      omega
    · rw [(h k).2 hge]
      simp [readData]
      omega

theorem stdout_read_write (count : Nat) (ret : Int) (data : List Nat) (t : List Event) :
    stdout (Event.read count ret :: Event.write data (data.length : Int) :: t)
      = data ++ stdout t := by
  simp [stdout]

theorem transfer_copies (env : Env) (count : Nat) (F : List Nat)
    (hread : ReadsFile env count F) (hwrite : WritesAll env) :
    ∀ fuel k, F.length - filePos env count k < fuel →
      (transfer env count fuel k).2 = some (LoopEnd.condFalse 0) ∧
      stdout (transfer env count fuel k).1 = F.drop (filePos env count k) := by
  intro fuel
  induction fuel with
  | zero => intro k h; omega
  | succ n ih =>
    intro k hk
    unfold transfer
    rcases Nat.lt_or_ge (filePos env count k) F.length with hlt | hge
    · obtain ⟨m, hm1, hm2, hr⟩ := (hread k).1 hlt
      have hlen : ((F.drop (filePos env count k)).take m).length = m := by
        simp; omega
      have hpos : filePos env count (k + 1) = filePos env count k + m := by
        simp [filePos, hr, readData, hlen]
      have hih := ih (k + 1) (by rw [hpos]; omega)
      rw [hpos] at hih
      have hw := hwrite k ((F.drop (filePos env count k)).take m)
      rw [hlen] at hw
      have h0 : (0 : Int) < (m : Int) := by omega
      simp only [hr, readRet_some, readData, hlen, hw, gt_iff_lt, h0, if_true, ne_eq,
        not_true, if_false]
      refine ⟨hih.1, ?_⟩
      have := stdout_read_write count (m : Int) ((F.drop (filePos env count k)).take m)
        (transfer env count n (k + 1)).1
      rw [hlen] at this
      rw [this, hih.2, ← List.drop_drop, List.take_append_drop]
    · have hr := (hread k).2 hge
      simp [hr, readRet, readData, stdout]
      omega
theorem stdout_append (a b : List Event) : stdout (a ++ b) = stdout a ++ stdout b := by
  induction a with
  | nil => rfl
  | cons e t ih => cases e <;> simp [stdout, ih]

theorem finish_eof (pre : List Event) (buffer : Nat) (lp : List Event × Option LoopEnd)
    (h : lp.2 = some (LoopEnd.condFalse 0)) :
    finish pre buffer lp = ⟨pre ++ lp.1 ++ [Event.release buffer, Event.close], some 0⟩ := by
  simp [finish, h]

/-- Claim C1. In each of the six variants, when the steps before the loop succeed, the source
holds `F` (any bytes, also none) and behaves as a regular file (each `read` with `r > 0`
bytes remaining delivers the next `n` bytes, `1 ≤ n ≤ min S r`, and returns 0 at the end),
and each `write` is complete, then every run with more than `F.length` iterations allowed
has terminated with exit status 0 and standard output received exactly `F`. -/
theorem copies_file_exactly (v : Variant) (env : Env) (F : List Nat) (fuel : Nat)
    (hsetup : reachesLoop v env) (hread : ReadsFile env (bufSize v env) F)
    (hwrite : WritesAll env) (hfuel : F.length < fuel) :
    (run v env fuel).exit = some 0 ∧ stdout (run v env fuel).trace = F := by
  obtain ⟨hargc, hopen, hsys, hfstat, hbuf⟩ := hsetup
  have hc := transfer_copies env (bufSize v env) F hread hwrite fuel 0
    (by simp [filePos]; omega)
  cases v with
  | v1 =>
    simp only [bufSize] at hc
    simp [run, mycat1.main, hargc, hopen, mycat1_loop_eq_transfer, hc.1, stdout_append,
      hc.2, filePos, stdout]
  | v2 =>
    simp only [bufSize] at hc
    have h1 := hsys (by decide)
    simp only [bufPtr, ne_eq, Option.some.injEq] at hbuf
    simp [run, mycat2.main, hargc, hopen, h1, hbuf, finish_eof _ _ _ hc.1, stdout_append,
      hc.2, filePos, stdout]
  | v3 =>
    simp only [bufSize] at hc
    have h1 := hsys (by decide)
    simp only [bufPtr, bufSize, ne_eq, Option.some.injEq] at hbuf
    simp [run, mycat3.main, hargc, hopen, h1, hbuf, finish_eof _ _ _ hc.1, stdout_append,
      hc.2, filePos, stdout]
  | v4 =>
    simp only [bufSize] at hc
    have h1 := hsys (by decide)
    have h2 := hfstat (by simp)
    simp only [bufPtr, bufSize, ne_eq, Option.some.injEq] at hbuf
    simp [run, mycat4.main, hargc, hopen, h1, h2, hbuf, finish_eof _ _ _ hc.1, stdout_append,
      hc.2, filePos, stdout]
  | v5 =>
    simp only [bufSize] at hc
    have h1 := hsys (by decide)
    have h2 := hfstat (by simp)
    simp only [bufPtr, bufSize, ne_eq, Option.some.injEq] at hbuf
    simp [run, mycat5.main, hargc, hopen, h1, h2, hbuf, finish_eof _ _ _ hc.1, stdout_append,
      hc.2, filePos, stdout]
  | v6 =>
    simp only [bufSize] at hc
    have h1 := hsys (by decide)
    have h2 := hfstat (by simp)
    simp only [bufPtr, bufSize, ne_eq, Option.some.injEq] at hbuf
    simp [run, mycat6.main, hargc, hopen, h1, h2, hbuf, finish_eof _ _ _ hc.1, stdout_append,
      hc.2, filePos, stdout]
theorem fileEnv_sys_read (F : List Nat) (k count : Nat) :
    sys_read (fileEnv F) k count = some ((F.drop (k * count)).take count) := by
  simp [sys_read, fileEnv, List.take_take]

theorem fileEnv_filePos (F : List Nat) (count k : Nat) :
    filePos (fileEnv F) count k = min (k * count) F.length := by
  induction k with
  | zero => simp [filePos]
  | succ k ih =>
    simp only [filePos, ih, fileEnv_sys_read, readData, List.length_take, List.length_drop,
      Nat.succ_mul]
    omega

theorem fileEnv_reads (F : List Nat) (count : Nat) (hc : 1 ≤ count) :
    ReadsFile (fileEnv F) count F := by
  intro k
  rw [fileEnv_filePos, fileEnv_sys_read]
  constructor
  · intro hlt
    have hk : k * count < F.length := by omega
    refine ⟨min count (F.length - min (k * count) F.length), by omega, le_refl _, ?_⟩
    rw [Nat.min_eq_left (Nat.le_of_lt hk)]
    congr 1
    rw [List.take_eq_take]
    simp
  · intro hge
    have hk : F.length ≤ k * count := by omega
    simp [List.drop_of_length_le hk]

theorem fileEnv_readsFull (F : List Nat) (count : Nat) : ReadsFull (fileEnv F) count F := by
  intro k
  rw [fileEnv_sys_read, fileEnv_filePos]
  rcases Nat.le_total (k * count) F.length with h | h
  · rw [Nat.min_eq_left h]
  · rw [Nat.min_eq_right h, List.drop_of_length_le h, List.drop_of_length_le (le_refl _)]

theorem fileEnv_writes (F : List Nat) : WritesAll (fileEnv F) := fun _ _ => rfl

/-- Instance of `copies_file_exactly`: mycat4 on a source holding `ABC`. -/
theorem copies_file_exactly_witness :
    reachesLoop Variant.v4 (fileEnv [65, 66, 67]) ∧
    (run Variant.v4 (fileEnv [65, 66, 67]) 4).exit = some 0 ∧
    stdout (run Variant.v4 (fileEnv [65, 66, 67]) 4).trace = [65, 66, 67] :=
  have h : reachesLoop Variant.v4 (fileEnv [65, 66, 67]) := by
    refine ⟨rfl, by decide, fun _ => by decide, fun _ => by decide, by decide⟩
  ⟨h, copies_file_exactly Variant.v4 (fileEnv [65, 66, 67]) [65, 66, 67] 4 h
    (fileEnv_reads _ _ (by decide)) (fileEnv_writes _) (by decide)⟩
theorem ceilDiv_zero (S : Nat) (hS : 1 ≤ S) : ceilDiv 0 S = 0 := by
  unfold ceilDiv
  apply Nat.div_eq_of_lt
  omega

theorem ceilDiv_step (r S : Nat) (hS : 1 ≤ S) (hr : 0 < r) :
    ceilDiv (r - min S r) S + 1 = ceilDiv r S := by
  unfold ceilDiv
  rcases Nat.lt_or_ge S r with h | h
  · rw [Nat.min_eq_left (Nat.le_of_lt h)]
    have e1 : r - S + S - 1 = r - 1 := by omega
    have e2 : r + S - 1 = r - 1 + S := by omega
    rw [e1, e2, Nat.add_div_right _ (by omega : 0 < S)]
  · rw [Nat.min_eq_right h]
    have e1 : r - r + S - 1 = S - 1 := by omega
    rw [e1, Nat.div_eq_of_lt (by omega : S - 1 < S)]
    have e2 : r + S - 1 = r - 1 + S := by omega
    rw [e2, Nat.add_div_right _ (by omega : 0 < S), Nat.div_eq_of_lt (by omega : r - 1 < S)]

theorem readsFull_readsFile (env : Env) (count : Nat) (F : List Nat) (hS : 1 ≤ count)
    (h : ReadsFull env count F) : ReadsFile env count F := by
  intro k
  rw [h k]
  constructor
  · intro hlt
    refine ⟨min count (F.length - filePos env count k), by omega, le_refl _, ?_⟩
    congr 1
    rw [List.take_eq_take]
    simp
  · intro hge
    simp [List.drop_of_length_le hge]

theorem transfer_counts (env : Env) (count : Nat) (F : List Nat) (hS : 1 ≤ count)
    (hread : ReadsFull env count F) (hwrite : WritesAll env) :
    ∀ fuel k, F.length - filePos env count k < fuel → filePos env count k ≤ F.length →
      readCalls (transfer env count fuel k).1
        = ceilDiv (F.length - filePos env count k) count + 1 ∧
      dataReads (transfer env count fuel k).1
        = ceilDiv (F.length - filePos env count k) count ∧
      writeCalls (transfer env count fuel k).1
        = ceilDiv (F.length - filePos env count k) count := by
  intro fuel
  induction fuel with
  | zero => intro k h; omega
  | succ n ih =>
    intro k hk hle
    unfold transfer
    have hr := hread k
    have hlen : ((F.drop (filePos env count k)).take count).length
        = min count (F.length - filePos env count k) := by simp
    rcases Nat.lt_or_ge (filePos env count k) F.length with hlt | hge
    · have hpos : filePos env count (k + 1)
          = filePos env count k + min count (F.length - filePos env count k) := by
        simp [filePos, hr, readData]
      have hih := ih (k + 1) (by rw [hpos]; omega) (by rw [hpos]; omega)
      rw [hpos] at hih
      have hw := hwrite k ((F.drop (filePos env count k)).take count)
      have h0 : (0 : Int) < (((F.drop (filePos env count k)).take count).length : Int) := by
        rw [hlen]; omega
      have hstep := ceilDiv_step (F.length - filePos env count k) count hS (by omega)
      have hsub : F.length - (filePos env count k + min count (F.length - filePos env count k))
          = F.length - filePos env count k - min count (F.length - filePos env count k) := by
        omega
      rw [hsub] at hih
      simp only [hr, readRet_some, readData, hw, gt_iff_lt, h0, if_true, ne_eq,
        not_true, if_false]
      simp only [readCalls, dataReads, writeCalls] at hih ⊢
      simp only [List.filter_cons, h0, decide_True, if_true, List.length_cons, hih.1, hih.2.1,
        hih.2.2, Bool.false_eq_true, if_false]
      omega
    · have hz : F.length - filePos env count k = 0 := by omega
      simp [hr, readRet, readData, List.drop_of_length_le hge, readCalls, dataReads,
        writeCalls, hz, ceilDiv_zero count hS]
theorem noReadWrite_counts (l : List Event) (h : ∀ e ∈ l, e.isReadWrite = false) :
    readCalls l = 0 ∧ dataReads l = 0 ∧ writeCalls l = 0 ∧ stdout l = [] := by
  induction l with
  | nil => simp [readCalls, dataReads, writeCalls, stdout]
  | cons e t ih =>
    have ht := ih (fun x hx => h x (List.mem_cons_of_mem _ hx))
    have he := h e (List.mem_cons_self _ _)
    simp only [readCalls, dataReads, writeCalls] at ht ⊢
    cases e <;> simp_all [Event.isReadWrite, stdout]

theorem readCalls_append (a b : List Event) :
    readCalls (a ++ b) = readCalls a + readCalls b := by
  simp [readCalls, List.filter_append]

theorem dataReads_append (a b : List Event) :
    dataReads (a ++ b) = dataReads a + dataReads b := by
  simp [dataReads, List.filter_append]

theorem writeCalls_append (a b : List Event) :
    writeCalls (a ++ b) = writeCalls a + writeCalls b := by
  simp [writeCalls, List.filter_append]

theorem run_eof (v : Variant) (env : Env) (fuel : Nat) (hsetup : reachesLoop v env)
    (h2 : (transfer env (bufSize v env) fuel 0).2 = some (LoopEnd.condFalse 0)) :
    ∃ pre post, run v env fuel
        = ⟨pre ++ (transfer env (bufSize v env) fuel 0).1 ++ post, some 0⟩ ∧
      (∀ e ∈ pre, e.isReadWrite = false) ∧ (∀ e ∈ post, e.isReadWrite = false) := by
  obtain ⟨hargc, hopen, hsys, hfstat, hbuf⟩ := hsetup
  cases v with
  | v1 =>
    refine ⟨[], [Event.close], ?_, by simp, by simp [Event.isReadWrite]⟩
    simp only [bufSize] at h2
    simp [run, mycat1.main, hargc, hopen, mycat1_loop_eq_transfer, h2, bufSize]
  | v2 =>
    have h1 := hsys (by decide)
    simp only [bufPtr, ne_eq, Option.some.injEq] at hbuf
    refine ⟨[Event.alloc (toU64 env.sysconf) (env.malloc (toU64 env.sysconf) % WORD)],
      [Event.release (env.malloc (toU64 env.sysconf) % WORD), Event.close], ?_,
      by simp [Event.isReadWrite], by simp [Event.isReadWrite]⟩
    simp only [bufSize] at h2
    simp [run, mycat2.main, hargc, hopen, h1, hbuf, finish_eof _ _ _ h2, bufSize]
  | v3 =>
    have h1 := hsys (by decide)
    simp only [bufPtr, bufSize, ne_eq, Option.some.injEq] at hbuf
    refine ⟨[Event.alloc (toU64 env.sysconf)
        (align_alloc env.sysconfAlloc env.malloc env.mem (toU64 env.sysconf)).ret],
      [Event.release (align_alloc env.sysconfAlloc env.malloc env.mem (toU64 env.sysconf)).ret,
        Event.close], ?_, by simp [Event.isReadWrite], by simp [Event.isReadWrite]⟩
    simp only [bufSize] at h2
    simp [run, mycat3.main, hargc, hopen, h1, hbuf, finish_eof _ _ _ h2, bufSize]
  | v4 =>
    have h1 := hsys (by decide)
    have h3 := hfstat (by simp)
    simp only [bufPtr, bufSize, ne_eq, Option.some.injEq] at hbuf
    refine ⟨[Event.alloc (mycat4.buffer_size env.sysconf env.st_blksize)
        (align_alloc env.sysconfAlloc env.malloc env.mem
          (mycat4.buffer_size env.sysconf env.st_blksize)).ret],
      [Event.release (align_alloc env.sysconfAlloc env.malloc env.mem
          (mycat4.buffer_size env.sysconf env.st_blksize)).ret,
        Event.close], ?_, by simp [Event.isReadWrite], by simp [Event.isReadWrite]⟩
    simp only [bufSize] at h2
    simp [run, mycat4.main, hargc, hopen, h1, h3, hbuf, finish_eof _ _ _ h2, bufSize]
  | v5 =>
    have h1 := hsys (by decide)
    have h3 := hfstat (by simp)
    simp only [bufPtr, bufSize, ne_eq, Option.some.injEq] at hbuf
    refine ⟨[Event.alloc 32768 (align_alloc env.sysconfAlloc env.malloc env.mem 32768).ret],
      [Event.release (align_alloc env.sysconfAlloc env.malloc env.mem 32768).ret,
        Event.close], ?_, by simp [Event.isReadWrite], by simp [Event.isReadWrite]⟩
    simp only [bufSize] at h2
    simp [run, mycat5.main, hargc, hopen, h1, h3, hbuf, finish_eof _ _ _ h2, bufSize]
  | v6 =>
    have h1 := hsys (by decide)
    have h3 := hfstat (by simp)
    simp only [bufPtr, bufSize, ne_eq, Option.some.injEq] at hbuf
    refine ⟨[Event.alloc 65536 (align_alloc env.sysconfAlloc env.malloc env.mem 65536).ret],
      [Event.release (align_alloc env.sysconfAlloc env.malloc env.mem 65536).ret,
        Event.close], ?_, by simp [Event.isReadWrite], by simp [Event.isReadWrite]⟩
    simp only [bufSize] at h2
    simp [run, mycat6.main, hargc, hopen, h1, h3, hbuf, finish_eof _ _ _ h2, bufSize]

/-- Claim C10, the claim as stated fails. Source `ABC`, buffer size 1 (mycat1), each `read`
full and each `write` complete: the run ends with status 0 and output `ABC` after 3 `write`
calls, but it made 4 `read` calls, not `ceil(3/1) = 3`: the fourth returns 0 and ends the
loop. -/
theorem read_calls_ABC_counterexample :
    ReadsFull (fileEnv [65, 66, 67]) 1 [65, 66, 67] ∧ WritesAll (fileEnv [65, 66, 67]) ∧
    (run Variant.v1 (fileEnv [65, 66, 67]) 5).exit = some 0 ∧
    stdout (run Variant.v1 (fileEnv [65, 66, 67]) 5).trace = [65, 66, 67] ∧
    writeCalls (run Variant.v1 (fileEnv [65, 66, 67]) 5).trace = 3 ∧
    readCalls (run Variant.v1 (fileEnv [65, 66, 67]) 5).trace = 4 ∧
    readCalls (run Variant.v1 (fileEnv [65, 66, 67]) 5).trace
      ≠ ceilDiv ([65, 66, 67] : List Nat).length 1 := by
  exact ⟨fileEnv_readsFull _ _, fileEnv_writes _, by decide, by decide, by decide, by decide,
    by decide⟩

/-- Claim C10, amended. For every source content `F` and buffer size `S ≥ 1`, when each
`read` delivers `min S r` of the `r` remaining bytes and no call fails, the loop ends at end
of file after exactly `ceil(len F / S)` reads that deliver data and one more read that
returns 0: `ceil(len F / S) + 1` read calls and `ceil(len F / S)` write calls, the output
being `F`; and every variant that reaches its loop with this buffer size exits with status 0
with these counts. -/
theorem read_call_count (env : Env) (S : Nat) (F : List Nat) (fuel : Nat) (hS : 1 ≤ S)
    (hread : ReadsFull env S F) (hwrite : WritesAll env) (hfuel : F.length < fuel) :
    ((transfer env S fuel 0).2 = some (LoopEnd.condFalse 0) ∧
      stdout (transfer env S fuel 0).1 = F ∧
      dataReads (transfer env S fuel 0).1 = ceilDiv F.length S ∧
      readCalls (transfer env S fuel 0).1 = ceilDiv F.length S + 1 ∧
      writeCalls (transfer env S fuel 0).1 = ceilDiv F.length S) ∧
    ∀ v, reachesLoop v env → bufSize v env = S →
      (run v env fuel).exit = some 0 ∧
      stdout (run v env fuel).trace = F ∧
      dataReads (run v env fuel).trace = ceilDiv F.length S ∧
      readCalls (run v env fuel).trace = ceilDiv F.length S + 1 ∧
      writeCalls (run v env fuel).trace = ceilDiv F.length S := by
  have hc := transfer_copies env S F (readsFull_readsFile env S F hS hread) hwrite fuel 0
    (by simp [filePos]; omega)
  have hn := transfer_counts env S F hS hread hwrite fuel 0 (by simp [filePos]; omega)
    (by simp [filePos])
  simp only [filePos, Nat.sub_zero, List.drop_zero] at hc hn
  refine ⟨⟨hc.1, hc.2, hn.2.1, hn.1, hn.2.2⟩, ?_⟩
  intro v hsetup hv
  subst hv
  obtain ⟨pre, post, hrun, hpre, hpost⟩ := run_eof v env fuel hsetup hc.1
  have cpre := noReadWrite_counts pre hpre
  have cpost := noReadWrite_counts post hpost
  rw [hrun]
  simp only [stdout_append, readCalls_append, dataReads_append, writeCalls_append, cpre.1,
    cpre.2.1, cpre.2.2.1, cpre.2.2.2, cpost.1, cpost.2.1, cpost.2.2.1, cpost.2.2.2, hc.2,
    hn.1, hn.2.1, hn.2.2]
  simp

/-- Instance of `read_call_count`: mycat1 (buffer size 1) on a source holding `ABC`. -/
theorem read_call_count_witness :
    (run Variant.v1 (fileEnv [65, 66, 67]) 4).exit = some 0 ∧
    stdout (run Variant.v1 (fileEnv [65, 66, 67]) 4).trace = [65, 66, 67] ∧
    dataReads (run Variant.v1 (fileEnv [65, 66, 67]) 4).trace = ceilDiv 3 1 ∧
    readCalls (run Variant.v1 (fileEnv [65, 66, 67]) 4).trace = ceilDiv 3 1 + 1 ∧
    writeCalls (run Variant.v1 (fileEnv [65, 66, 67]) 4).trace = ceilDiv 3 1 :=
  (read_call_count (fileEnv [65, 66, 67]) 1 [65, 66, 67] 4 (by decide)
    (fileEnv_readsFull _ _) (fileEnv_writes _) (by decide)).2 Variant.v1
    (by refine ⟨rfl, by decide, fun h => absurd rfl h, fun h => by simp at h, by decide⟩) rfl
theorem readRet_eq_length_of_pos (r : Option (List Nat)) (h : 0 < readRet r) :
    readRet r = ((readData r).length : Int) := by
  cases r with
  | none => simp [readRet] at h
  | some c => rfl

theorem transfer_succ_write_failed (env : Env) (count n k : Nat)
    (hpos : 0 < readRet (sys_read env k count))
    (hne : env.write k (readData (sys_read env k count)) ≠ readRet (sys_read env k count)) :
    transfer env count (n + 1) k
      = ([Event.read count (readRet (sys_read env k count)),
          Event.write (readData (sys_read env k count))
            (env.write k (readData (sys_read env k count)))], some LoopEnd.writeFailed) := by
  simp [transfer, hpos, hne]

theorem transfer_succ_continue (env : Env) (count n k : Nat)
    (hpos : 0 < readRet (sys_read env k count))
    (heq : env.write k (readData (sys_read env k count)) = readRet (sys_read env k count)) :
    transfer env count (n + 1) k
      = (Event.read count (readRet (sys_read env k count)) ::
          Event.write (readData (sys_read env k count))
            (env.write k (readData (sys_read env k count))) ::
          (transfer env count n (k + 1)).1, (transfer env count n (k + 1)).2) := by
  simp [transfer, hpos, heq]

theorem transfer_succ_stop (env : Env) (count n k : Nat)
    (hpos : ¬ 0 < readRet (sys_read env k count)) :
    transfer env count (n + 1) k
      = ([Event.read count (readRet (sys_read env k count))],
          some (LoopEnd.condFalse (readRet (sys_read env k count)))) := by
  simp [transfer, hpos]

theorem transfer_short_write (env : Env) (count : Nat) :
    ∀ fuel k pre d w post, (transfer env count fuel k).1 = pre ++ Event.write d w :: post →
      w ≠ (d.length : Int) →
      (transfer env count fuel k).2 = some LoopEnd.writeFailed ∧ post = [] := by
  intro fuel
  induction fuel with
  | zero => intro k pre d w post h; simp [transfer] at h
  | succ n ih =>
    intro k pre d w post h hw
    by_cases hpos : 0 < readRet (sys_read env k count)
    · have hlen := readRet_eq_length_of_pos _ hpos
      by_cases heq : env.write k (readData (sys_read env k count))
          = readRet (sys_read env k count)
      · rw [transfer_succ_continue env count n k hpos heq] at h ⊢
        match pre, h with
        | [], h => simp at h
        | [_], h =>
          simp at h
          obtain ⟨_, ⟨hd, hw2⟩, _⟩ := h
          subst hd
          rw [← hw2, heq, hlen] at hw
          exact absurd rfl hw
        | _ :: _ :: pre2, h =>
          simp at h
          exact ih (k + 1) pre2 d w post h.2.2 hw
      · rw [transfer_succ_write_failed env count n k hpos heq] at h ⊢
        match pre, h with
        | [], h => simp at h
        | [_], h => simp at h; exact ⟨rfl, h.2.2⟩
        | _ :: _ :: _ :: _, h => simp at h
    · rw [transfer_succ_stop env count n k hpos] at h
      match pre, h with
      | [], h => simp at h
      | _ :: _, h => simp at h

theorem transfer_read_error (env : Env) (count : Nat) :
    ∀ fuel k pre c post, (transfer env count fuel k).1 = pre ++ Event.read c (-1) :: post →
      (transfer env count fuel k).2 = some (LoopEnd.condFalse (-1)) ∧ post = [] := by
  intro fuel
  induction fuel with
  | zero => intro k pre c post h; simp [transfer] at h
  | succ n ih =>
    intro k pre c post h
    by_cases hpos : 0 < readRet (sys_read env k count)
    · by_cases heq : env.write k (readData (sys_read env k count))
          = readRet (sys_read env k count)
      · rw [transfer_succ_continue env count n k hpos heq] at h ⊢
        match pre, h with
        | [], h => simp at h; have := h.1.2; omega
        | [_], h => simp at h
        | _ :: _ :: pre2, h =>
          simp at h
          exact ih (k + 1) pre2 c post h.2.2
      · rw [transfer_succ_write_failed env count n k hpos heq] at h ⊢
        match pre, h with
        | [], h => simp at h; have := h.1.2; omega
        | [_], h => simp at h
        | _ :: _ :: _ :: _, h => simp at h
    · rw [transfer_succ_stop env count n k hpos] at h ⊢
      match pre, h with
      | [], h => simp at h; exact ⟨by rw [h.1.2], h.2⟩
      | _ :: _, h => simp at h

theorem split_middle (A L B pre post : List Event) (x : Event)
    (h : A ++ L ++ B = pre ++ x :: post) (hA : x ∉ A) (hB : x ∉ B) :
    ∃ p q, L = p ++ x :: q ∧ pre = A ++ p ∧ post = q ++ B := by
  induction A generalizing pre with
  | nil =>
    simp only [List.nil_append] at h ⊢
    rcases List.append_eq_append_iff.1 h with ⟨a, hp, hb⟩ | ⟨c, hl, hx⟩
    · exact absurd (by rw [hb]; simp) hB
    · cases c with
      | nil =>
        simp only [List.nil_append] at hx
        exact absurd (by rw [← hx]; simp) hB
      | cons y c =>
        simp only [List.cons_append, List.cons.injEq] at hx
        exact ⟨pre, c, by rw [hl, hx.1], rfl, hx.2⟩
  | cons a A ih =>
    cases pre with
    | nil =>
      simp only [List.cons_append, List.nil_append, List.cons.injEq] at h
      exact absurd (by rw [h.1]; simp) hA
    | cons b pre =>
      simp only [List.cons_append, List.cons.injEq] at h
      obtain ⟨p, q, h1, h2, h3⟩ := ih pre h.2 (fun hm => hA (List.mem_cons_of_mem _ hm))
      exact ⟨p, q, h1, by rw [h.1, h2]; rfl, h3⟩
theorem finish_eq_loopTail (pre : List Event) (p : Nat) (lp : List Event × Option LoopEnd) :
    finish pre p lp = loopTail true pre [Event.release p, Event.close] lp := by
  unfold finish loopTail
  cases lp.2 with
  | none => rfl
  | some e =>
    cases e with
    | writeFailed => rfl
    | condFalse r => by_cases h : r = -1 <;> simp [h, EXIT_FAILURE]

theorem mycat1_main_eq_loopTail (env : Env) (fuel : Nat) (h1 : env.argc = 2)
    (h2 : env.openRet ≠ -1) :
    mycat1.main env fuel = loopTail false [] [Event.close] (transfer env 1 fuel 0) := by
  unfold mycat1.main loopTail
  rw [mycat1_loop_eq_transfer]
  simp only [h1, h2, ne_eq, not_true, if_false, List.nil_append]
  cases (transfer env 1 fuel 0).2 with
  | none => rfl
  | some e =>
    cases e with
    | writeFailed => rfl
    | condFalse r => simp

/-- Every run that follows a successful open either stops before the loop (with only a
close, or a failed allocation and a close, and status 1) or has the shape `loopTail`. -/
theorem run_shape (v : Variant) (env : Env) (fuel : Nat) (h1 : env.argc = 2)
    (h2 : env.openRet ≠ -1) :
    run v env fuel = ⟨[Event.close], some 1⟩ ∨
    (∃ S, run v env fuel = ⟨[Event.alloc S 0, Event.close], some 1⟩) ∨
    (∃ S p, p ≠ 0 ∧ v ≠ Variant.v1 ∧ run v env fuel
      = loopTail true [Event.alloc S p] [Event.release p, Event.close]
          (transfer env S fuel 0)) ∨
    (v = Variant.v1 ∧
      run v env fuel = loopTail false [] [Event.close] (transfer env 1 fuel 0)) := by
  cases v with
  | v1 => exact Or.inr (Or.inr (Or.inr ⟨rfl, mycat1_main_eq_loopTail env fuel h1 h2⟩))
  | v2 =>
    simp only [run, mycat2.main, h1, h2, ne_eq, not_true, if_false, EXIT_FAILURE]
    by_cases hs : env.sysconf = -1
    · simp [hs]
    · simp only [hs, if_false]
      by_cases hb : env.malloc (toU64 env.sysconf) % WORD = 0
      · right; left; exact ⟨toU64 env.sysconf, by simp [hb]⟩
      · right; right; left
        exact ⟨toU64 env.sysconf, _, hb, by decide, by simp [hb, finish_eq_loopTail]⟩
  | v3 =>
    simp only [run, mycat3.main, h1, h2, ne_eq, not_true, if_false, EXIT_FAILURE]
    by_cases hs : env.sysconf = -1
    · simp [hs]
    · simp only [hs, if_false]
      by_cases hb : (align_alloc env.sysconfAlloc env.malloc env.mem (toU64 env.sysconf)).ret = 0
      · right; left; exact ⟨toU64 env.sysconf, by simp [hb]⟩
      · right; right; left
        exact ⟨toU64 env.sysconf, _, hb, by decide, by simp [hb, finish_eq_loopTail]⟩
  | v4 =>
    simp only [run, mycat4.main, h1, h2, ne_eq, not_true, if_false, EXIT_FAILURE]
    by_cases hs : env.sysconf = -1
    · simp [hs]
    · simp only [hs, if_false]
      by_cases hf : env.fstat = -1
      · simp [hf]
      · simp only [hf, if_false]
        by_cases hb : (align_alloc env.sysconfAlloc env.malloc env.mem
            (mycat4.buffer_size env.sysconf env.st_blksize)).ret = 0
        · right; left; exact ⟨mycat4.buffer_size env.sysconf env.st_blksize, by simp [hb]⟩
        · right; right; left
          exact ⟨mycat4.buffer_size env.sysconf env.st_blksize, _, hb, by decide,
            by simp [hb, finish_eq_loopTail]⟩
  | v5 =>
    simp only [run, mycat5.main, h1, h2, ne_eq, not_true, if_false, EXIT_FAILURE]
    by_cases hs : env.sysconf = -1
    · simp [hs]
    · simp only [hs, if_false]
      by_cases hf : env.fstat = -1
      · simp [hf]
      · simp only [hf, if_false]
        by_cases hb : (align_alloc env.sysconfAlloc env.malloc env.mem 32768).ret = 0
        · right; left; exact ⟨32768, by simp [hb]⟩
        · right; right; left
          exact ⟨32768, _, hb, by decide, by simp [hb, finish_eq_loopTail]⟩
  | v6 =>
    simp only [run, mycat6.main, h1, h2, ne_eq, not_true, if_false, EXIT_FAILURE]
    by_cases hs : env.sysconf = -1
    · simp [hs]
    · simp only [hs, if_false]
      by_cases hf : env.fstat = -1
      · simp [hf]
      · simp only [hf, if_false]
        by_cases hb : (align_alloc env.sysconfAlloc env.malloc env.mem 65536).ret = 0
        · right; left; exact ⟨65536, by simp [hb]⟩
        · right; right; left
          exact ⟨65536, _, hb, by decide, by simp [hb, finish_eq_loopTail]⟩
theorem run_no_open (v : Variant) (env : Env) (fuel : Nat)
    (h : env.argc ≠ 2 ∨ env.openRet = -1) : run v env fuel = ⟨[], some 1⟩ := by
  rcases h with h | h
  · cases v <;> simp [run, mycat1.main, mycat2.main, mycat3.main, mycat4.main, mycat5.main,
      mycat6.main, h, EXIT_FAILURE]
  · by_cases h1 : env.argc = 2 <;>
    cases v <;> simp [run, mycat1.main, mycat2.main, mycat3.main, mycat4.main, mycat5.main,
      mycat6.main, h, h1, EXIT_FAILURE]

theorem allocated_of_isReadWrite (l : List Event) (h : ∀ e ∈ l, e.isReadWrite = true) :
    allocated l = none := by
  induction l with
  | nil => rfl
  | cons e t ih =>
    have he := h e (List.mem_cons_self _ _)
    have ht := ih (fun x hx => h x (List.mem_cons_of_mem _ hx))
    cases e <;> simp_all [allocated, Event.isReadWrite]

theorem not_cleanup_of_isReadWrite (e : Event) (h : e.isReadWrite = true) :
    e.isCleanup = false := by
  cases e <;> simp_all [Event.isReadWrite, Event.isCleanup]

theorem loopTail_trace (strict : Bool) (pre0 post0 : List Event)
    (lp : List Event × Option LoopEnd) (code : Nat)
    (h : (loopTail strict pre0 post0 lp).exit = some code) :
    (loopTail strict pre0 post0 lp).trace = (pre0 ++ lp.1) ++ post0 := by
  unfold loopTail at h ⊢
  cases h2 : lp.2 with
  | none => simp [h2] at h
  | some e => cases e <;> simp

theorem loopTail_short_write (strict : Bool) (pre0 post0 : List Event) (env : Env)
    (count fuel : Nat) (hA : ∀ e ∈ pre0, e.isReadWrite = false)
    (hB : ∀ e ∈ post0, e.isReadWrite = false)
    (pre post : List Event) (d : List Nat) (w : Int)
    (h : (loopTail strict pre0 post0 (transfer env count fuel 0)).trace
      = pre ++ Event.write d w :: post)
    (hw : w ≠ (d.length : Int)) :
    (loopTail strict pre0 post0 (transfer env count fuel 0)).exit = some 1 ∧
    post = post0 ∧ ∃ p, pre = pre0 ++ p ∧ ∀ e ∈ p, e.isReadWrite = true := by
  have hxA : Event.write d w ∉ pre0 := fun hm => by simpa [Event.isReadWrite] using hA _ hm
  have hxB : Event.write d w ∉ post0 := fun hm => by simpa [Event.isReadWrite] using hB _ hm
  have key : ∀ B, (∀ e ∈ B, e.isReadWrite = false) →
      pre0 ++ (transfer env count fuel 0).1 ++ B = pre ++ Event.write d w :: post →
      (transfer env count fuel 0).2 = some LoopEnd.writeFailed ∧ post = B ∧
      ∃ p, pre = pre0 ++ p ∧ ∀ e ∈ p, e.isReadWrite = true := by
    intro B hB2 hEq
    have hxB2 : Event.write d w ∉ B := fun hm => by simpa [Event.isReadWrite] using hB2 _ hm
    obtain ⟨p, q, hL, hp, hq⟩ := split_middle _ _ _ _ _ _ hEq hxA hxB2
    obtain ⟨h2, hq0⟩ := transfer_short_write env count fuel 0 p d w q hL hw
    refine ⟨h2, by rw [hq, hq0]; rfl, p, hp, ?_⟩
    intro e he
    exact transfer_isReadWrite env count fuel 0 e (by rw [hL]; simp [he])
  unfold loopTail at h ⊢
  cases h2 : (transfer env count fuel 0).2 with
  | none =>
    simp only [h2] at h
    have := key [] (by simp) (by simpa using h)
    rw [h2] at this
    simp at this
  | some e =>
    cases e with
    | writeFailed =>
      simp only [h2] at h
      obtain ⟨_, hq, hp⟩ := key post0 hB h
      exact ⟨rfl, hq, hp⟩
    | condFalse r =>
      simp only [h2] at h
      have := key post0 hB h
      rw [h2] at this
      simp at this

theorem loopTail_read_error (strict : Bool) (pre0 post0 : List Event) (env : Env)
    (count fuel : Nat) (hA : ∀ e ∈ pre0, e.isReadWrite = false)
    (hB : ∀ e ∈ post0, e.isReadWrite = false)
    (pre post : List Event) (c : Nat)
    (h : (loopTail strict pre0 post0 (transfer env count fuel 0)).trace
      = pre ++ Event.read c (-1) :: post) :
    (loopTail strict pre0 post0 (transfer env count fuel 0)).exit
      = some (if strict = true then 1 else 0) ∧ post = post0 := by
  have hxA : Event.read c (-1) ∉ pre0 := fun hm => by simpa [Event.isReadWrite] using hA _ hm
  have key : ∀ B, (∀ e ∈ B, e.isReadWrite = false) →
      pre0 ++ (transfer env count fuel 0).1 ++ B = pre ++ Event.read c (-1) :: post →
      (transfer env count fuel 0).2 = some (LoopEnd.condFalse (-1)) ∧ post = B := by
    intro B hB2 hEq
    have hxB2 : Event.read c (-1) ∉ B := fun hm => by simpa [Event.isReadWrite] using hB2 _ hm
    obtain ⟨p, q, hL, hp, hq⟩ := split_middle _ _ _ _ _ _ hEq hxA hxB2
    obtain ⟨h2, hq0⟩ := transfer_read_error env count fuel 0 p c q hL
    exact ⟨h2, by rw [hq, hq0]; rfl⟩
  unfold loopTail at h ⊢
  cases h2 : (transfer env count fuel 0).2 with
  | none =>
    simp only [h2] at h
    have := key [] (by simp) (by simpa using h)
    rw [h2] at this
    simp at this
  | some e =>
    cases e with
    | writeFailed =>
      simp only [h2] at h
      have := key post0 hB h
      rw [h2] at this
      simp at this
    | condFalse r =>
      simp only [h2] at h
      obtain ⟨hr, hq⟩ := key post0 hB h
      rw [h2] at hr
      simp only [Option.some.injEq, LoopEnd.condFalse.injEq] at hr
      subst hr
      exact ⟨by simp, hq⟩
theorem transfer_mono (env : Env) (count : Nat) :
    ∀ fuel k e, (transfer env count fuel k).2 = some e →
      ∀ n, transfer env count (fuel + n) k = transfer env count fuel k := by
  intro fuel
  induction fuel with
  | zero => intro k e h; simp [transfer] at h
  | succ m ih =>
    intro k e h n
    have e1 : m + 1 + n = (m + n) + 1 := by omega
    rw [e1]
    by_cases hpos : 0 < readRet (sys_read env k count)
    · by_cases heq : env.write k (readData (sys_read env k count))
          = readRet (sys_read env k count)
      · rw [transfer_succ_continue env count m k hpos heq] at h ⊢
        rw [transfer_succ_continue env count (m + n) k hpos heq, ih (k + 1) e h n]
      · rw [transfer_succ_write_failed env count m k hpos heq,
          transfer_succ_write_failed env count (m + n) k hpos heq]
    · rw [transfer_succ_stop env count m k hpos, transfer_succ_stop env count (m + n) k hpos]

theorem run_eq_of_transfer_eq (v : Variant) (env : Env) (f1 f2 : Nat)
    (h : transfer env (bufSize v env) f1 0 = transfer env (bufSize v env) f2 0) :
    run v env f1 = run v env f2 := by
  cases v <;>
    simp only [run, mycat1.main, mycat2.main, mycat3.main, mycat4.main, mycat5.main,
      mycat6.main, mycat1_loop_eq_transfer, bufSize] at h ⊢ <;>
    rw [h]

/-- A run that has terminated is final: more fuel gives the same trace and exit status. -/
theorem run_mono (v : Variant) (env : Env) (fuel c : Nat)
    (h : (run v env fuel).exit = some c) (n : Nat) :
    run v env (fuel + n) = run v env fuel := by
  cases hT : (transfer env (bufSize v env) fuel 0).2 with
  | some e =>
    exact run_eq_of_transfer_eq v env _ _ (transfer_mono env _ fuel 0 e hT n)
  | none =>
    cases v <;>
      simp only [run, mycat1.main, mycat2.main, mycat3.main, mycat4.main, mycat5.main,
        mycat6.main, mycat1_loop_eq_transfer, bufSize] at h hT ⊢ <;>
      split_ifs at h ⊢ <;>
      first
        | rfl
        | (exfalso; simp [finish, hT] at h)

/-- Claim C2, the defect in mycat1. The third `read` fails with `-1` after two bytes were
copied: `main` of `mycat1.c` closes the handle and returns 0, as on a clean end of file. -/
theorem mycat1_read_error_exits_zero :
    run Variant.v1 readErrEnv 5
      = ⟨[Event.read 1 1, Event.write [65] 1, Event.read 1 1, Event.write [65] 1,
          Event.read 1 (-1), Event.close], some 0⟩ := by
  decide

/-- In mycat2 … mycat6 a run in which a `read` returned `-1` has terminated with status 1,
and after that `read` it only released the buffer and closed the handle; in mycat1 such a
run has terminated with status 0. -/
theorem read_error_exit_status (v : Variant) (env : Env) (fuel : Nat)
    (pre post : List Event) (c : Nat)
    (h : (run v env fuel).trace = pre ++ Event.read c (-1) :: post) :
    (run v env fuel).exit = some (if v = Variant.v1 then 0 else 1) ∧
    ∀ e ∈ post, e.isReadWrite = false := by
  by_cases h1 : env.argc = 2 ∧ env.openRet ≠ -1
  · rcases run_shape v env fuel h1.1 h1.2 with
      hr | ⟨S, hr⟩ | ⟨S, p, hp, hv, hr⟩ | ⟨hv, hr⟩
    · rw [hr] at h
      match pre, h with
      | [], h => simp at h
      | [_], h => simp at h
      | _ :: _ :: _, h => simp at h
    · rw [hr] at h
      match pre, h with
      | [], h => simp at h
      | [_], h => simp at h
      | _ :: _ :: _, h => simp at h
    · rw [hr] at h ⊢
      obtain ⟨he, hq⟩ := loopTail_read_error true _ _ env S fuel (by simp [Event.isReadWrite])
        (by simp [Event.isReadWrite]) pre post c h
      refine ⟨by simp [he, hv], ?_⟩
      rw [hq]
      simp [Event.isReadWrite]
    · rw [hr] at h ⊢
      obtain ⟨he, hq⟩ := loopTail_read_error false _ _ env 1 fuel (by simp)
        (by simp [Event.isReadWrite]) pre post c h
      refine ⟨by simp [he, hv], ?_⟩
      rw [hq]
      simp [Event.isReadWrite]
  · have hn : env.argc ≠ 2 ∨ env.openRet = -1 := by
      by_cases ha : env.argc = 2
      · right
        by_contra hb
        exact h1 ⟨ha, hb⟩
      · exact Or.inl ha
    rw [run_no_open v env fuel hn] at h
    simp at h

/-- Instance of `read_error_exit_status`: mycat2 when the third `read` fails. -/
theorem read_error_exit_status_witness :
    (run Variant.v2 readErrEnv 5).trace
      = [Event.alloc 4096 65536, Event.read 4096 1, Event.write [65] 1, Event.read 4096 1,
          Event.write [65] 1] ++ Event.read 4096 (-1) :: [Event.release 65536, Event.close] ∧
    (run Variant.v2 readErrEnv 5).exit = some 1 :=
  ⟨by decide, (read_error_exit_status Variant.v2 readErrEnv 5
    [Event.alloc 4096 65536, Event.read 4096 1, Event.write [65] 1, Event.read 4096 1,
      Event.write [65] 1] [Event.release 65536, Event.close] 4096 (by decide)).1⟩

/-- Claim C3. In each of the six variants, a run in which a `write` of `n` bytes returned
anything but `n` has terminated with exit status 1, and after that `write` it made no
further `read` or `write`: what follows is exactly the cleanup (release of the buffer if one
was allocated, then close). The outcome is final: it is the same with any larger fuel. -/
theorem short_write_is_fatal (v : Variant) (env : Env) (fuel : Nat)
    (pre post : List Event) (d : List Nat) (w : Int)
    (h : (run v env fuel).trace = pre ++ Event.write d w :: post)
    (hw : w ≠ (d.length : Int)) :
    (run v env fuel).exit = some 1 ∧ post = cleanup (allocated pre) ∧
    (∀ e ∈ post, e.isReadWrite = false) ∧
    ∀ n, run v env (fuel + n) = run v env fuel := by
  suffices core : (run v env fuel).exit = some 1 ∧ post = cleanup (allocated pre) ∧
      ∀ e ∈ post, e.isReadWrite = false from
    ⟨core.1, core.2.1, core.2.2, run_mono v env fuel 1 core.1⟩
  by_cases h1 : env.argc = 2 ∧ env.openRet ≠ -1
  · rcases run_shape v env fuel h1.1 h1.2 with
      hr | ⟨S, hr⟩ | ⟨S, p, hp, hv, hr⟩ | ⟨hv, hr⟩
    · rw [hr] at h
      match pre, h with
      | [], h => simp at h
      | [_], h => simp at h
      | _ :: _ :: _, h => simp at h
    · rw [hr] at h
      match pre, h with
      | [], h => simp at h
      | [_], h => simp at h
      | _ :: _ :: _, h => simp at h
    · rw [hr] at h ⊢
      obtain ⟨he, hq, p2, hpre, hio⟩ := loopTail_short_write true _ _ env S fuel
        (by simp [Event.isReadWrite]) (by simp [Event.isReadWrite]) pre post d w h hw
      refine ⟨he, ?_, ?_⟩
      · rw [hq, hpre]
        simp [allocated, hp, cleanup]
      · rw [hq]
        simp [Event.isReadWrite]
    · rw [hr] at h ⊢
      obtain ⟨he, hq, p2, hpre, hio⟩ := loopTail_short_write false _ _ env 1 fuel
        (by simp) (by simp [Event.isReadWrite]) pre post d w h hw
      refine ⟨he, ?_, ?_⟩
      · rw [hq, hpre]
        simp [allocated_of_isReadWrite p2 hio, cleanup]
      · rw [hq]
        simp [Event.isReadWrite]
  · have hn : env.argc ≠ 2 ∨ env.openRet = -1 := by
      by_cases ha : env.argc = 2
      · right
        by_contra hb
        exact h1 ⟨ha, hb⟩
      · exact Or.inl ha
    rw [run_no_open v env fuel hn] at h
    simp at h

/-- Instance of `short_write_is_fatal`: mycat3 when the first `write` of 3 bytes returns 2. -/
theorem short_write_is_fatal_witness :
    (run Variant.v3 shortWriteEnv 5).trace
      = [Event.alloc 4096 69632, Event.read 4096 3] ++ Event.write [65, 66, 67] 2 ::
          [Event.release 69632, Event.close] ∧
    (run Variant.v3 shortWriteEnv 5).exit = some 1 ∧
    [Event.release 69632, Event.close]
      = cleanup (allocated [Event.alloc 4096 69632, Event.read 4096 3]) ∧
    (∀ e ∈ [Event.release 69632, Event.close], e.isReadWrite = false) ∧
    ∀ n, run Variant.v3 shortWriteEnv (5 + n) = run Variant.v3 shortWriteEnv 5 :=
  ⟨by decide, short_write_is_fatal Variant.v3 shortWriteEnv 5 _ _ [65, 66, 67] 2 (by decide)
    (by decide)⟩

/-- Every terminated run that follows a successful open is final and has a trace of the form
`pre ++ cleanup`; a run that has not terminated has released and closed nothing. -/
theorem terminated_run_shape (v : Variant) (env : Env) (fuel : Nat)
    (h1 : env.argc = 2) (h2 : env.openRet ≠ -1) :
    (∀ code, (run v env fuel).exit = some code →
      (∀ n, run v env (fuel + n) = run v env fuel) ∧
      ∃ pre, (run v env fuel).trace = pre ++ cleanup (allocated pre) ∧
        ∀ e ∈ pre, e.isCleanup = false) ∧
    ((run v env fuel).exit = none → ∀ e ∈ (run v env fuel).trace, e.isCleanup = false) := by
  suffices core : (∀ code, (run v env fuel).exit = some code →
      ∃ pre, (run v env fuel).trace = pre ++ cleanup (allocated pre) ∧
        ∀ e ∈ pre, e.isCleanup = false) ∧
      ((run v env fuel).exit = none →
        ∀ e ∈ (run v env fuel).trace, e.isCleanup = false) from
    ⟨fun code hc => ⟨run_mono v env fuel code hc, core.1 code hc⟩, core.2⟩
  rcases run_shape v env fuel h1 h2 with hr | ⟨S, hr⟩ | ⟨S, p, hp, hv, hr⟩ | ⟨hv, hr⟩
  · rw [hr]
    exact ⟨fun _ _ => ⟨[], by simp [allocated, cleanup], by simp⟩, by simp⟩
  · rw [hr]
    exact ⟨fun _ _ => ⟨[Event.alloc S 0], by simp [allocated, cleanup],
      by simp [Event.isCleanup]⟩, by simp⟩
  · rw [hr]
    constructor
    · intro code hc
      refine ⟨[Event.alloc S p] ++ (transfer env S fuel 0).1, ?_, ?_⟩
      · rw [loopTail_trace _ _ _ _ code hc]
        simp [allocated, hp, cleanup]
      · intro e he
        rcases List.mem_append.1 he with h | h
        · simp at h
          subst h
          rfl
        · exact not_cleanup_of_isReadWrite e (transfer_isReadWrite env S fuel 0 e h)
    · intro hnone e he
      unfold loopTail at hnone he
      cases h3 : (transfer env S fuel 0).2 with
      | none =>
        simp only [h3] at he
        rcases List.mem_append.1 he with h | h
        · simp at h
          subst h
          rfl
        · exact not_cleanup_of_isReadWrite e (transfer_isReadWrite env S fuel 0 e h)
      | some x => cases x <;> simp [h3] at hnone
  · rw [hr]
    constructor
    · intro code hc
      refine ⟨(transfer env 1 fuel 0).1, ?_, ?_⟩
      · rw [loopTail_trace _ _ _ _ code hc]
        simp [allocated_of_isReadWrite _ (transfer_isReadWrite env 1 fuel 0), cleanup]
      · intro e he
        exact not_cleanup_of_isReadWrite e (transfer_isReadWrite env 1 fuel 0 e he)
    · intro hnone e he
      unfold loopTail at hnone he
      cases h3 : (transfer env 1 fuel 0).2 with
      | none =>
        simp only [h3, List.nil_append] at he
        exact not_cleanup_of_isReadWrite e (transfer_isReadWrite env 1 fuel 0 e he)
      | some x => cases x <;> simp [h3] at hnone


theorem loopTail_exit_none (strict : Bool) (pre post : List Event)
    (lp : List Event × Option LoopEnd) (h : (loopTail strict pre post lp).exit = none) :
    lp.2 = none := by
  unfold loopTail at h
  cases h2 : lp.2 with
  | none => rfl
  | some e => cases e <;> simp [h2] at h

theorem transfer_none (env : Env) (count : Nat) :
    ∀ fuel k, (transfer env count fuel k).2 = none → ∀ j, j < fuel →
      0 < readRet (sys_read env (k + j) count) ∧
      env.write (k + j) (readData (sys_read env (k + j) count))
        = readRet (sys_read env (k + j) count) := by
  intro fuel
  induction fuel with
  | zero => intro k _ j hj; omega
  | succ m ih =>
    intro k h j hj
    by_cases hpos : 0 < readRet (sys_read env k count)
    · by_cases heq : env.write k (readData (sys_read env k count))
          = readRet (sys_read env k count)
      · rw [transfer_succ_continue env count m k hpos heq] at h
        cases j with
        | zero => exact ⟨hpos, heq⟩
        | succ j2 =>
          have := ih (k + 1) h j2 (by omega)
          have e : k + 1 + j2 = k + (j2 + 1) := by omega
          rw [e] at this
          exact this
      · rw [transfer_succ_write_failed env count m k hpos heq] at h
        simp at h
    · rw [transfer_succ_stop env count m k hpos] at h
      simp at h

/-- A run that follows a successful open and has not terminated has reached its loop, and
the loop has used up the fuel. -/
theorem run_exit_none (v : Variant) (env : Env) (fuel : Nat)
    (h1 : env.argc = 2) (h2 : env.openRet ≠ -1) (h : (run v env fuel).exit = none) :
    reachesLoop v env ∧ (transfer env (bufSize v env) fuel 0).2 = none := by
  cases v with
  | v1 =>
    simp only [run] at h
    rw [mycat1_main_eq_loopTail env fuel h1 h2] at h
    exact ⟨⟨h1, h2, fun hv => absurd rfl hv, fun hv => by simp at hv, by simp [bufPtr]⟩,
      loopTail_exit_none _ _ _ _ h⟩
  | v2 =>
    simp only [run, mycat2.main, h1, h2, ne_eq, not_true, if_false] at h
    by_cases hs : env.sysconf = -1
    · simp [hs] at h
    · simp only [hs, if_false] at h
      by_cases hb : env.malloc (toU64 env.sysconf) % WORD = 0
      · simp [hb] at h
      · simp only [hb, if_false, finish_eq_loopTail] at h
        exact ⟨⟨h1, h2, fun _ => hs, fun hv => by simp at hv, by simp [bufPtr, hb]⟩,
          loopTail_exit_none _ _ _ _ h⟩
  | v3 =>
    simp only [run, mycat3.main, h1, h2, ne_eq, not_true, if_false] at h
    by_cases hs : env.sysconf = -1
    · simp [hs] at h
    · simp only [hs, if_false] at h
      by_cases hb : (align_alloc env.sysconfAlloc env.malloc env.mem (toU64 env.sysconf)).ret = 0
      · simp [hb] at h
      · simp only [hb, if_false, finish_eq_loopTail] at h
        exact ⟨⟨h1, h2, fun _ => hs, fun hv => by simp at hv, by simp [bufPtr, bufSize, hb]⟩,
          loopTail_exit_none _ _ _ _ h⟩
  | v4 =>
    simp only [run, mycat4.main, h1, h2, ne_eq, not_true, if_false] at h
    by_cases hs : env.sysconf = -1
    · simp [hs] at h
    · simp only [hs, if_false] at h
      by_cases hf : env.fstat = -1
      · simp [hf] at h
      · simp only [hf, if_false] at h
        by_cases hb : (align_alloc env.sysconfAlloc env.malloc env.mem
            (mycat4.buffer_size env.sysconf env.st_blksize)).ret = 0
        · simp [hb] at h
        · simp only [hb, if_false, finish_eq_loopTail] at h
          exact ⟨⟨h1, h2, fun _ => hs, fun _ => hf, by simp [bufPtr, bufSize, hb]⟩,
            loopTail_exit_none _ _ _ _ h⟩
  | v5 =>
    simp only [run, mycat5.main, h1, h2, ne_eq, not_true, if_false] at h
    by_cases hs : env.sysconf = -1
    · simp [hs] at h
    · simp only [hs, if_false] at h
      by_cases hf : env.fstat = -1
      · simp [hf] at h
      · simp only [hf, if_false] at h
        by_cases hb : (align_alloc env.sysconfAlloc env.malloc env.mem 32768).ret = 0
        · simp [hb] at h
        · simp only [hb, if_false, finish_eq_loopTail] at h
          exact ⟨⟨h1, h2, fun _ => hs, fun _ => hf, by simp [bufPtr, bufSize, hb]⟩,
            loopTail_exit_none _ _ _ _ h⟩
  | v6 =>
    simp only [run, mycat6.main, h1, h2, ne_eq, not_true, if_false] at h
    by_cases hs : env.sysconf = -1
    · simp [hs] at h
    · simp only [hs, if_false] at h
      by_cases hf : env.fstat = -1
      · simp [hf] at h
      · simp only [hf, if_false] at h
        by_cases hb : (align_alloc env.sysconfAlloc env.malloc env.mem 65536).ret = 0
        · simp [hb] at h
        · simp only [hb, if_false, finish_eq_loopTail] at h
          exact ⟨⟨h1, h2, fun _ => hs, fun _ => hf, by simp [bufPtr, bufSize, hb]⟩,
            loopTail_exit_none _ _ _ _ h⟩

/-- Claim C4. In each of the six variants, every path that follows a successful open reaches
the exit through the cleanup. A failed page-size query, a failed `fstat` or a failed
allocation ends the run at once; a `read` that returns 0 (clean end of file) or `-1` (read
error), or a `write` that does not return the count read, at an iteration within the fuel,
ends the run: in each case the run has an exit status and its trace is `pre ++ cleanup`,
where `pre` holds no release and no close and the cleanup is the release of the buffer if
and only if `pre` allocated one (and of that very pointer), then the close of the handle,
with nothing after it. A terminated run is final (the same with any larger fuel), and a run
that has not terminated (its loop still transfers data) has released and closed nothing. -/
theorem cleanup_on_every_path (v : Variant) (env : Env) (fuel : Nat)
    (h1 : env.argc = 2) (h2 : env.openRet ≠ -1) :
    (((v ≠ Variant.v1 ∧ env.sysconf = -1) ∨
        ((v = Variant.v4 ∨ v = Variant.v5 ∨ v = Variant.v6) ∧ env.fstat = -1) ∨
        bufPtr v env = some 0) →
      ∃ code pre, (run v env fuel).exit = some code ∧
        (run v env fuel).trace = pre ++ cleanup (allocated pre) ∧
        ∀ e ∈ pre, e.isCleanup = false) ∧
    (∀ k, k < fuel →
      (readRet (sys_read env k (bufSize v env)) = 0 ∨
        readRet (sys_read env k (bufSize v env)) = -1 ∨
        env.write k (readData (sys_read env k (bufSize v env)))
          ≠ readRet (sys_read env k (bufSize v env))) →
      ∃ code pre, (run v env fuel).exit = some code ∧
        (run v env fuel).trace = pre ++ cleanup (allocated pre) ∧
        ∀ e ∈ pre, e.isCleanup = false) ∧
    (∀ code, (run v env fuel).exit = some code →
      (∀ n, run v env (fuel + n) = run v env fuel) ∧
      ∃ pre, (run v env fuel).trace = pre ++ cleanup (allocated pre) ∧
        ∀ e ∈ pre, e.isCleanup = false) ∧
    ((run v env fuel).exit = none → ∀ e ∈ (run v env fuel).trace, e.isCleanup = false) := by
  have hshape := terminated_run_shape v env fuel h1 h2
  have hterm : ∀ code, (run v env fuel).exit = some code →
      ∃ code pre, (run v env fuel).exit = some code ∧
        (run v env fuel).trace = pre ++ cleanup (allocated pre) ∧
        ∀ e ∈ pre, e.isCleanup = false := by
    intro code hc
    obtain ⟨pre, hp1, hp2⟩ := (hshape.1 code hc).2
    exact ⟨code, pre, hc, hp1, hp2⟩
  refine ⟨?_, ?_, hshape.1, hshape.2⟩
  · intro hfail
    cases hx : (run v env fuel).exit with
    | some code => rw [← hx]; exact hterm code hx
    | none =>
      exfalso
      obtain ⟨⟨_, _, hsys, hfstat, hbuf⟩, _⟩ := run_exit_none v env fuel h1 h2 hx
      rcases hfail with ⟨hv, hs⟩ | ⟨hv, hf⟩ | hb
      · exact hsys hv hs
      · exact hfstat hv hf
      · exact hbuf hb
  · intro k hk hend
    cases hx : (run v env fuel).exit with
    | some code => rw [← hx]; exact hterm code hx
    | none =>
      exfalso
      obtain ⟨_, hnone⟩ := run_exit_none v env fuel h1 h2 hx
      have hok := transfer_none env (bufSize v env) fuel 0 hnone k hk
      rw [Nat.zero_add] at hok
      rcases hend with h0 | h0 | h0
      · omega
      · omega
      · exact h0 hok.2

/-- Instance of `cleanup_on_every_path`: mycat6 when the third `read` fails. -/
theorem cleanup_on_every_path_witness :
    (2 < 5 ∧ readRet (sys_read readErrEnv 2 (bufSize Variant.v6 readErrEnv)) = -1) ∧
    (run Variant.v6 readErrEnv 5).exit = some 1 ∧
    (run Variant.v6 readErrEnv 5).trace
      = [Event.alloc 65536 69632, Event.read 65536 1, Event.write [65] 1,
          Event.read 65536 1, Event.write [65] 1, Event.read 65536 (-1)]
        ++ [Event.release 69632, Event.close] ∧
    ∃ code pre, (run Variant.v6 readErrEnv 5).exit = some code ∧
      (run Variant.v6 readErrEnv 5).trace = pre ++ cleanup (allocated pre) ∧
      ∀ e ∈ pre, e.isCleanup = false :=
  ⟨by decide, by decide, by decide,
    (cleanup_on_every_path Variant.v6 readErrEnv 5 (by decide) (by decide)).2.1 2 (by decide)
      (Or.inr (Or.inl (by decide)))⟩
/-! ## Lemmas on machine arithmetic -/

theorem toU64_natCast (P : Nat) (h : P < WORD) : toU64 (P : Int) = P := by
  unfold toU64 WORD at *
  omega

theorem toU64_lnot_pred (P : Nat) (h1 : 1 ≤ P) (h : P ≤ WORD) :
    toU64 (lnot ((P : Int) - 1)) = WORD - P := by
  unfold toU64 lnot WORD at *
  omega

theorem land_mask (x k : Nat) (hx : x < 2 ^ 64) (hk : k ≤ 64) :
    x &&& (2 ^ 64 - 2 ^ k) = x / 2 ^ k * 2 ^ k := by
  have e1 : 2 ^ 64 - 2 ^ k = 2 ^ k * (2 ^ (64 - k) - 1) := by
    rw [Nat.mul_sub, ← Nat.pow_add, Nat.mul_one]
    congr 2
    omega
  rw [e1, Nat.mul_comm (x / 2 ^ k)]
  apply Nat.eq_of_testBit_eq
  intro i
  rw [Nat.testBit_and, Nat.testBit_mul_pow_two, Nat.testBit_mul_pow_two,
    Nat.testBit_two_pow_sub_one, ← Nat.shiftRight_eq_div_pow, Nat.testBit_shiftRight]
  by_cases h1 : k ≤ i
  · by_cases h2 : i < 64
    · have : i - k < 64 - k := by omega
      have e : k + (i - k) = i := by omega
      simp [h1, this, e]
    · have hlt : x < 2 ^ i :=
        Nat.lt_of_lt_of_le hx (Nat.pow_le_pow_right (by decide) (by omega))
      have : ¬ (i - k < 64 - k) := by omega
      simp [h1, this, Nat.testBit_lt_two_pow hlt]
  · simp [h1]

theorem WORD_eq : WORD = 2 ^ 64 := by norm_num [WORD]

theorem pageSize_eq (r : Int) (P : Nat) (hr : r = (P : Int) ∨ (r = -1 ∧ P = 4096)) :
    (if r = -1 then (4096 : Int) else r) = (P : Int) := by
  rcases hr with h | ⟨h1, h2⟩
  · have : ¬ r = -1 := by omega
    simp [this, h]
  · simp [h1, h2]

theorem align_alloc_base (r : Int) (malloc : Nat → Nat) (mem : Mem) (size : Nat) :
    (align_alloc r malloc mem size).base
      = malloc ((size + toU64 (if r = -1 then 4096 else r)) % WORD) % WORD := by
  unfold align_alloc
  simp only
  split_ifs <;> rfl

theorem align_alloc_req (r : Int) (malloc : Nat → Nat) (mem : Mem) (size : Nat) :
    (align_alloc r malloc mem size).req
      = (size + toU64 (if r = -1 then 4096 else r)) % WORD := by
  unfold align_alloc
  simp only
  split_ifs <;> rfl

/-- In a sane environment (the page size `P = 2 ^ k` is the queried one, or 4096 when the
query fails; the allocation succeeds at `b` and `b + P` is an address) `align_alloc` returns
`b + P` rounded down to a multiple of `P`. -/
theorem align_alloc_ret (r : Int) (P k : Nat) (malloc : Nat → Nat) (mem : Mem) (size b : Nat)
    (hr : r = (P : Int) ∨ (r = -1 ∧ P = 4096)) (hP : P = 2 ^ k)
    (hb : (align_alloc r malloc mem size).base = b) (hb0 : b ≠ 0) (hbP : b + P < WORD) :
    (align_alloc r malloc mem size).ret = (b + P) / 2 ^ k * 2 ^ k := by
  have hps := pageSize_eq r P hr
  rw [align_alloc_base, hps] at hb
  have hPW : P < WORD := by omega
  have hP1 : 1 ≤ P := by rw [hP]; exact Nat.one_le_two_pow
  have hk : k ≤ 64 := by
    by_contra hk
    have : 2 ^ 64 < 2 ^ k := Nat.pow_lt_pow_right (by decide) (by omega)
    rw [← hP, ← WORD_eq] at this
    omega
  have hmask : ((b + P) % WORD) &&& (WORD - P) = (b + P) / 2 ^ k * 2 ^ k := by
    rw [Nat.mod_eq_of_lt hbP, WORD_eq, hP]
    exact land_mask _ k (by rw [← hP, ← WORD_eq]; exact hbP) hk
  have hlow : (b + P) / 2 ^ k * 2 ^ k = b + P - (b + P) % P := by
    rw [hP]
    have := Nat.div_add_mod (b + 2 ^ k) (2 ^ k)
    rw [Nat.mul_comm] at this
    omega
  have hmod : (b + P) % P < P := Nat.mod_lt _ (by omega)
  rw [toU64_natCast P hPW] at hb
  unfold align_alloc
  simp only [hps, toU64_natCast P hPW, toU64_lnot_pred P hP1 (Nat.le_of_lt hPW), hb, hb0,
    if_false, hmask]
  have hnot : ¬ (b + P) / 2 ^ k * 2 ^ k < b := by omega
  simp only [hnot, if_false]
/-- Claim C5. For every requested size and every base address `b ≠ NULL` obtained from the
underlying allocation, with the page size `P = 2 ^ k` (the queried one, or 4096 when the
query fails) and `b + P` below `2^64`, the address `a` returned by `align_alloc` is a
multiple of `P` and is not below `b`; it is `b + P` with its low `k` bits cleared, so
`b < a ≤ b + P`. -/
theorem align_alloc_page_aligned (r : Int) (P k : Nat) (malloc : Nat → Nat) (mem : Mem)
    (size b : Nat) (hr : r = (P : Int) ∨ (r = -1 ∧ P = 4096)) (hP : P = 2 ^ k)
    (hb : (align_alloc r malloc mem size).base = b) (hb0 : b ≠ 0) (hbP : b + P < WORD) :
    (align_alloc r malloc mem size).ret % P = 0 ∧
    b ≤ (align_alloc r malloc mem size).ret ∧
    (align_alloc r malloc mem size).ret = b + P - (b + P) % 2 ^ k ∧
    (∀ i, (align_alloc r malloc mem size).ret.testBit i
      = (decide (k ≤ i) && (b + P).testBit i)) ∧
    b < (align_alloc r malloc mem size).ret ∧
    (align_alloc r malloc mem size).ret ≤ b + P := by
  have hret := align_alloc_ret r P k malloc mem size b hr hP hb hb0 hbP
  have hdm := Nat.div_add_mod (b + P) (2 ^ k)
  rw [Nat.mul_comm] at hdm
  have hmod : (b + P) % 2 ^ k < 2 ^ k := Nat.mod_lt _ Nat.one_le_two_pow
  rw [hret]
  refine ⟨by rw [hP]; exact Nat.mul_mod_left _ _, by omega, by omega, ?_, by omega, by omega⟩
  intro i
  rw [Nat.mul_comm, Nat.testBit_mul_pow_two, ← Nat.shiftRight_eq_div_pow,
    Nat.testBit_shiftRight]
  by_cases h : k ≤ i
  · have e : k + (i - k) = i := by omega
    simp [h, e]
  · simp [h]

/-- Instance of `align_alloc_page_aligned`: failed page-size query (so `P = 4096`) and base
address `0x10010`. -/
theorem align_alloc_page_aligned_witness :
    (align_alloc (-1) (fun _ => 65552) (fun _ => 0) 4096).ret % 4096 = 0 ∧
    65552 ≤ (align_alloc (-1) (fun _ => 65552) (fun _ => 0) 4096).ret ∧
    (align_alloc (-1) (fun _ => 65552) (fun _ => 0) 4096).ret
      = 65552 + 4096 - (65552 + 4096) % 2 ^ 12 ∧
    (∀ i, (align_alloc (-1) (fun _ => 65552) (fun _ => 0) 4096).ret.testBit i
      = (decide (12 ≤ i) && (65552 + 4096).testBit i)) ∧
    65552 < (align_alloc (-1) (fun _ => 65552) (fun _ => 0) 4096).ret ∧
    (align_alloc (-1) (fun _ => 65552) (fun _ => 0) 4096).ret ≤ 65552 + 4096 :=
  align_alloc_page_aligned (-1) 4096 12 (fun _ => 65552) (fun _ => 0) 4096 65552
    (Or.inr ⟨rfl, rfl⟩) (by norm_num) (by decide) (by decide) (by decide)

/-- Claim C6, the defect. Requested size `2^64 - 1`, page size 4096: `size + page_size`
wraps to 4095, `malloc(4095)` succeeds at `0x10000`, and `align_alloc` returns the non-null
address `0x11000`. The allocation is `[0x10000, 0x10fff)`: it holds neither the slot
`[0x10ff8, 0x11000)` in full nor a single byte of the region `[0x11000, 0x11000 + size)`. -/
theorem align_alloc_overflow_region_too_small :
    (align_alloc 4096 (fun _ => 65536) (fun _ => 0) 18446744073709551615).req = 4095 ∧
    (align_alloc 4096 (fun _ => 65536) (fun _ => 0) 18446744073709551615).base = 65536 ∧
    (align_alloc 4096 (fun _ => 65536) (fun _ => 0) 18446744073709551615).ret = 69632 ∧
    ¬ ((align_alloc 4096 (fun _ => 65536) (fun _ => 0) 18446744073709551615).ret
        ≤ (align_alloc 4096 (fun _ => 65536) (fun _ => 0) 18446744073709551615).base
          + (align_alloc 4096 (fun _ => 65536) (fun _ => 0) 18446744073709551615).req) ∧
    ¬ ((align_alloc 4096 (fun _ => 65536) (fun _ => 0) 18446744073709551615).ret
          + 18446744073709551615
        ≤ (align_alloc 4096 (fun _ => 65536) (fun _ => 0) 18446744073709551615).base
          + (align_alloc 4096 (fun _ => 65536) (fun _ => 0) 18446744073709551615).req) := by
  decide
/-- Without the wrap the code does what it sets out to do: when `size + P` does not wrap,
`P = 2 ^ k ≥ 8`, the base `b` is 8-byte aligned (as `malloc` guarantees) and the block
`[b, b + size + P)` lies below the last address, `align_alloc` returns a non-null `a` with
the slot `[a - 8, a)` and the region `[a, a + size)` inside the block. -/
theorem align_alloc_region_fits (r : Int) (P k : Nat) (malloc : Nat → Nat) (mem : Mem)
    (size b : Nat) (hr : r = (P : Int) ∨ (r = -1 ∧ P = 4096)) (hP : P = 2 ^ k)
    (hP8 : 8 ≤ P) (hb : (align_alloc r malloc mem size).base = b) (hb0 : b ≠ 0)
    (hal : b % 8 = 0) (hfit : b + size + P < WORD) :
    (align_alloc r malloc mem size).req = size + P ∧
    (align_alloc r malloc mem size).ret ≠ 0 ∧
    b + PTR_SIZE ≤ (align_alloc r malloc mem size).ret ∧
    (align_alloc r malloc mem size).ret + size ≤ b + (align_alloc r malloc mem size).req := by
  have hbP : b + P < WORD := by omega
  have hreq : (align_alloc r malloc mem size).req = size + P := by
    rw [align_alloc_req, pageSize_eq r P hr, toU64_natCast P (by omega),
      Nat.mod_eq_of_lt (by omega)]
  have hret := align_alloc_ret r P k malloc mem size b hr hP hb hb0 hbP
  have hdm := Nat.div_add_mod (b + P) (2 ^ k)
  rw [Nat.mul_comm] at hdm
  have h8P : 8 ∣ P := by
    rw [hP]
    have hk : 3 ≤ k := by
      by_contra hk
      have : k ≤ 2 := by omega
      have : 2 ^ k ≤ 2 ^ 2 := Nat.pow_le_pow_right (by decide) this
      omega
    exact ⟨2 ^ (k - 3), by rw [← Nat.pow_add 2 3 (k - 3)]; congr 1; omega⟩
  have h8m : 8 ∣ (b + P) % P := (Nat.dvd_mod_iff h8P).2 (by omega)
  obtain ⟨q, hq⟩ := h8P
  obtain ⟨t, ht⟩ := h8m
  have hmod : (b + P) % P < P := Nat.mod_lt _ (by omega)
  rw [← hP] at hret hdm
  rw [hreq]
  unfold PTR_SIZE
  refine ⟨rfl, by omega, by omega, by omega⟩

/-- Instance of `align_alloc_region_fits`: size 32768, page size 4096, base address `0x10010`. -/
theorem align_alloc_region_fits_witness :
    (align_alloc 4096 (fun _ => 65552) (fun _ => 0) 32768).req = 32768 + 4096 ∧
    (align_alloc 4096 (fun _ => 65552) (fun _ => 0) 32768).ret ≠ 0 ∧
    65552 + PTR_SIZE ≤ (align_alloc 4096 (fun _ => 65552) (fun _ => 0) 32768).ret ∧
    (align_alloc 4096 (fun _ => 65552) (fun _ => 0) 32768).ret + 32768
      ≤ 65552 + (align_alloc 4096 (fun _ => 65552) (fun _ => 0) 32768).req :=
  align_alloc_region_fits 4096 4096 12 (fun _ => 65552) (fun _ => 0) 32768 65552
    (Or.inl rfl) (by norm_num) (by decide) (by decide) (by decide) (by decide) (by decide)

/-! ## Lemmas on memory -/

theorem applyStores_untouched (stores : List Store) (mem : Mem) (x : Nat)
    (h : ∀ s ∈ stores, s.addr ≠ x) : applyStores mem stores x = mem x := by
  induction stores generalizing mem with
  | nil => rfl
  | cons s t ih =>
    have hs : x ≠ s.addr := fun e => h s (List.mem_cons_self _ _) e.symm
    have := ih (storeByte mem s.addr s.val) (fun y hy => h y (List.mem_cons_of_mem _ hy))
    simp only [applyStores, List.foldl_cons] at this ⊢
    rw [this]
    simp [storeByte, hs]

theorem store64_get (mem : Mem) (addr v i : Nat) (hi : i < 8) (ha : addr + 8 ≤ WORD) :
    store64 mem addr v (addr + i) = v / 256 ^ i % 256 := by
  have hm : ∀ j, j < 8 → (addr + j) % WORD = addr + j := fun j hj =>
    Nat.mod_eq_of_lt (by omega)
  have e : List.range 8 = [0, 1, 2, 3, 4, 5, 6, 7] := by decide
  simp only [store64, e, List.foldl_cons, List.foldl_nil, storeByte, Nat.add_zero,
    hm 1 (by decide), hm 2 (by decide), hm 3 (by decide), hm 4 (by decide), hm 5 (by decide),
    hm 6 (by decide), hm 7 (by decide), Nat.mod_eq_of_lt (by omega : addr < WORD)]
  interval_cases i <;> simp

theorem load64_eq (m : Mem) (addr v : Nat) (ha : addr + 8 ≤ WORD) (hv : v < WORD)
    (h : ∀ i, i < 8 → m (addr + i) = v / 256 ^ i % 256) : load64 m addr = v := by
  have hm : ∀ j, j < 8 → (addr + j) % WORD = addr + j := fun j hj =>
    Nat.mod_eq_of_lt (by omega)
  have e : List.range 8 = [0, 1, 2, 3, 4, 5, 6, 7] := by decide
  have h0 := h 0 (by decide)
  simp only [load64, e, List.map_cons, List.map_nil, List.sum_cons, List.sum_nil,
    hm 0 (by decide), hm 1 (by decide), hm 2 (by decide), hm 3 (by decide), hm 4 (by decide),
    hm 5 (by decide), hm 6 (by decide), hm 7 (by decide), h 1 (by decide), h 2 (by decide),
    h 3 (by decide), h 4 (by decide), h 5 (by decide), h 6 (by decide), h 7 (by decide), h0]
  unfold WORD at hv
  norm_num
  omega

theorem align_alloc_mem (r : Int) (malloc : Nat → Nat) (mem : Mem) (size : Nat)
    (h : (align_alloc r malloc mem size).ret ≠ 0) :
    (align_alloc r malloc mem size).mem
      = store64 mem (((align_alloc r malloc mem size).ret + WORD - PTR_SIZE) % WORD)
          (align_alloc r malloc mem size).base ∧
    (align_alloc r malloc mem size).base < WORD ∧
    (align_alloc r malloc mem size).ret < WORD := by
  have hW : 0 < WORD := by decide
  unfold align_alloc at h ⊢
  simp only at h ⊢
  generalize (if r = -1 then (4096 : Int) else r) = ps at h ⊢
  split_ifs at h ⊢ with h1 h2
  · simp at h
  · exact ⟨rfl, Nat.mod_lt _ hW, Nat.mod_lt _ hW⟩
  · refine ⟨rfl, Nat.mod_lt _ hW, ?_⟩
    exact Nat.lt_of_le_of_lt Nat.and_le_left (Nat.mod_lt _ hW)

/-- Claim C7. After a successful `align_alloc(size)` that obtained `b` from `malloc` and
returned `a` (with the slot `[a - 8, a)` in the address space: `8 ≤ a`), and after any
sequence of byte stores confined to `[a, a + size)`, the word read back from the slot just
before `a` is the pointer stored by `align_alloc`, and `align_free(a)` passes exactly `b`
to `free`, once. -/
theorem align_free_recovers_base (r : Int) (malloc : Nat → Nat) (mem : Mem)
    (size a b : Nat) (stores : List Store)
    (ha : (align_alloc r malloc mem size).ret = a)
    (hb : (align_alloc r malloc mem size).base = b)
    (h8 : PTR_SIZE ≤ a)
    (hst : ∀ s ∈ stores, a ≤ s.addr ∧ s.addr < a + size) :
    load64 (applyStores (align_alloc r malloc mem size).mem stores) (a - PTR_SIZE)
      = load64 (align_alloc r malloc mem size).mem (a - PTR_SIZE) ∧
    load64 (applyStores (align_alloc r malloc mem size).mem stores) (a - PTR_SIZE) = b ∧
    align_free (applyStores (align_alloc r malloc mem size).mem stores) a = [b] := by
  unfold PTR_SIZE at h8
  have hne : (align_alloc r malloc mem size).ret ≠ 0 := by omega
  obtain ⟨hmem, hbW, haW⟩ := align_alloc_mem r malloc mem size hne
  rw [ha, hb] at hmem
  rw [hb] at hbW
  rw [ha] at haW
  have hslot : (a + WORD - PTR_SIZE) % WORD = a - 8 := by
    unfold PTR_SIZE
    have e : a + WORD - 8 = (a - 8) + WORD := by omega
    rw [e, Nat.add_mod_right, Nat.mod_eq_of_lt (by omega)]
  rw [hslot] at hmem
  have hfit : a - 8 + 8 ≤ WORD := by omega
  have hstored : load64 (align_alloc r malloc mem size).mem (a - 8) = b := by
    apply load64_eq _ _ _ hfit hbW
    intro i hi
    rw [hmem]
    exact store64_get mem (a - 8) b i hi hfit
  have hkept :
      load64 (applyStores (align_alloc r malloc mem size).mem stores) (a - 8) = b := by
    apply load64_eq _ _ _ hfit hbW
    intro i hi
    rw [applyStores_untouched stores _ _ (fun s hs => by have := (hst s hs).1; omega), hmem]
    exact store64_get mem (a - 8) b i hi hfit
  have hfree : align_free (applyStores (align_alloc r malloc mem size).mem stores) a
      = [b] := by
    have ha0 : ¬ a = 0 := by omega
    simp only [align_free, ha0, if_false, hslot, hkept]
  exact ⟨by unfold PTR_SIZE; rw [hkept, hstored], by unfold PTR_SIZE; exact hkept, hfree⟩

/-- Instance of `align_free_recovers_base`: three byte stores into the region
`[0x11000, 0x12000)`, at its first and last byte. -/
theorem align_free_recovers_base_witness :
    load64 (applyStores (align_alloc 4096 (fun _ => 65552) (fun _ => 0) 4096).mem
        [⟨69632, 65⟩, ⟨73727, 255⟩, ⟨69632, 66⟩]) (69632 - PTR_SIZE)
      = load64 (align_alloc 4096 (fun _ => 65552) (fun _ => 0) 4096).mem (69632 - PTR_SIZE) ∧
    load64 (applyStores (align_alloc 4096 (fun _ => 65552) (fun _ => 0) 4096).mem
        [⟨69632, 65⟩, ⟨73727, 255⟩, ⟨69632, 66⟩]) (69632 - PTR_SIZE) = 65552 ∧
    align_free (applyStores (align_alloc 4096 (fun _ => 65552) (fun _ => 0) 4096).mem
        [⟨69632, 65⟩, ⟨73727, 255⟩, ⟨69632, 66⟩]) 69632 = [65552] :=
  align_free_recovers_base 4096 (fun _ => 65552) (fun _ => 0) 4096 69632 65552
    [⟨69632, 65⟩, ⟨73727, 255⟩, ⟨69632, 66⟩] (by decide) (by decide) (by decide)
    (by
      intro s hs
      simp only [List.mem_cons, List.mem_singleton, List.not_mem_nil, or_false] at hs
      rcases hs with rfl | rfl | rfl <;> decide)
/-! ## The buffer size of mycat4 -/

theorem buffer_size_nat (p m : Nat) (B : Int) (hp : 0 < p) (hm : max (p : Int) B = (m : Int))
    (hW : m + p < WORD) :
    mycat4.buffer_size (p : Int) B = if m % p ≠ 0 then (m / p + 1) * p else m := by
  have hMAX : mycat4.MAX (p : Int) B = (m : Int) := by
    unfold mycat4.MAX
    split_ifs <;> omega
  have hdm := Nat.div_add_mod m p
  have hmod : m % p < p := Nat.mod_lt _ hp
  have e : (m / p + 1) * p = p * (m / p) + p := by ring
  unfold mycat4.buffer_size
  simp only [hMAX, toU64_natCast m (by omega), toU64_natCast p (by omega)]
  rw [Nat.mod_eq_of_lt (by omega : (m / p + 1) * p < WORD)]

/-- Claim C8. For every page size `P > 0` and every block size `B` (any `long`), the
`buffer_size` computed by mycat4 is the least multiple of `P` that is at least
`max P B`: it is a multiple of `P`, at least `max P B`, and below every other such
multiple; hence it is positive, at least `P`, at least `B`, less than `max P B + P`, and
equal to `max P B` when that is a multiple of `P`. -/
theorem buffer_size_least_multiple (P B : Int) (hP : 0 < P) (hPmax : P < 2 ^ 63)
    (hBmin : -(2 ^ 63) ≤ B) (hBmax : B < 2 ^ 63) :
    (mycat4.buffer_size P B : Int) % P = 0 ∧
    max P B ≤ (mycat4.buffer_size P B : Int) ∧
    (∀ x : Int, x % P = 0 → max P B ≤ x → (mycat4.buffer_size P B : Int) ≤ x) ∧
    0 < (mycat4.buffer_size P B : Int) ∧
    P ≤ (mycat4.buffer_size P B : Int) ∧
    B ≤ (mycat4.buffer_size P B : Int) ∧
    (mycat4.buffer_size P B : Int) < max P B + P ∧
    (max P B % P = 0 → (mycat4.buffer_size P B : Int) = max P B) := by
  obtain ⟨p, rfl⟩ : ∃ p : Nat, P = (p : Int) := ⟨P.toNat, by omega⟩
  obtain ⟨m, hm⟩ : ∃ m : Nat, max (p : Int) B = (m : Int) :=
    ⟨(max (p : Int) B).toNat, by omega⟩
  have hp : 0 < p := by omega
  have hmp : p ≤ m := by omega
  have hW : m + p < WORD := by unfold WORD; omega
  have hdm := Nat.div_add_mod m p
  have hmod : m % p < p := Nat.mod_lt _ hp
  have e : (m / p + 1) * p = p * (m / p) + p := by ring
  rw [buffer_size_nat p m B hp hm hW, hm]
  generalize m / p = q at hdm e ⊢
  by_cases h0 : m % p = 0
  · simp only [h0, ne_eq, not_true, if_false]
    have hc : ((m : Int)) % (p : Int) = 0 := by exact_mod_cast h0
    exact ⟨hc, le_refl _, fun x _ hx => hx, by omega, by omega, by omega, by omega,
      fun _ => trivial⟩
  · simp only [h0, ne_eq, not_false_eq_true, if_true]
    have hr : (((q + 1) * p : Nat) : Int) % (p : Int) = 0 := by
      have : (q + 1) * p % p = 0 := Nat.mul_mod_left _ _
      exact_mod_cast this
    have hmc : (m : Int) % (p : Int) = ((m % p : Nat) : Int) := by push_cast; rfl
    generalize m % p = s at hdm hmod h0 hmc
    have hdmI : (p : Int) * (q : Int) + (s : Int) = (m : Int) := by exact_mod_cast hdm
    have hval : (((q + 1) * p : Nat) : Int) = (p : Int) * (q : Int) + (p : Int) := by
      rw [e]
      push_cast
      rfl
    rw [hval] at hr ⊢
    refine ⟨hr, by omega, ?_, by omega, by omega, by omega, by omega, ?_⟩
    · intro x hx hxm
      obtain ⟨t, rfl⟩ := Int.dvd_of_emod_eq_zero hx
      have h1 : (p : Int) * (q : Int) < (p : Int) * t := by omega
      have h2 : (q : Int) < t := lt_of_mul_lt_mul_left h1 (by omega)
      have h3 : (p : Int) * ((q : Int) + 1) ≤ (p : Int) * t :=
        mul_le_mul_of_nonneg_left (by omega) (by omega)
      linarith
    · intro hc
      rw [hmc] at hc
      exact absurd (by exact_mod_cast hc) h0

/-- Instance of `buffer_size_least_multiple`: page size 4096 and block size 6000 give 8192. -/
theorem buffer_size_least_multiple_witness :
    (mycat4.buffer_size 4096 6000 : Int) % 4096 = 0 ∧
    max 4096 6000 ≤ (mycat4.buffer_size 4096 6000 : Int) ∧
    (∀ x : Int, x % 4096 = 0 → max 4096 6000 ≤ x →
      (mycat4.buffer_size 4096 6000 : Int) ≤ x) ∧
    0 < (mycat4.buffer_size 4096 6000 : Int) ∧
    4096 ≤ (mycat4.buffer_size 4096 6000 : Int) ∧
    6000 ≤ (mycat4.buffer_size 4096 6000 : Int) ∧
    (mycat4.buffer_size 4096 6000 : Int) < max 4096 6000 + 4096 ∧
    (max (4096 : Int) 6000 % 4096 = 0 → (mycat4.buffer_size 4096 6000 : Int) = max 4096 6000) :=
  buffer_size_least_multiple 4096 6000 (by decide) (by decide) (by decide) (by decide)
/-! ## Failure of the page-size query -/

theorem transfer_withAllocPageSize (env : Env) (r : Int) (count fuel k : Nat) :
    transfer (withAllocPageSize env r) count fuel k = transfer env count fuel k := by
  induction fuel generalizing k with
  | zero => rfl
  | succ n ih =>
    unfold transfer
    rw [ih]
    rfl

theorem align_alloc_fallback (malloc : Nat → Nat) (mem : Mem) (size : Nat) :
    align_alloc (-1) malloc mem size = align_alloc 4096 malloc mem size := by
  unfold align_alloc
  simp

/-- Claim C9, the claim as stated fails. Every page-size query fails, all else succeeds and
the source holds `ABC`: mycat2, mycat3 and mycat4 close the source and exit with status 1;
no buffer is allocated and nothing is read or written. -/
theorem page_query_failure_counterexample :
    run Variant.v2 noPageSizeEnv 5 = ⟨[Event.close], some 1⟩ ∧
    run Variant.v3 noPageSizeEnv 5 = ⟨[Event.close], some 1⟩ ∧
    run Variant.v4 noPageSizeEnv 5 = ⟨[Event.close], some 1⟩ := by
  decide

theorem loopTail_exit (strict : Bool) (pre post : List Event)
    (lp : List Event × Option LoopEnd) :
    (loopTail strict pre post lp).exit
      = match lp.2 with
        | none => none
        | some LoopEnd.writeFailed => some 1
        | some (LoopEnd.condFalse r) => some (if strict = true ∧ r = -1 then 1 else 0) := by
  unfold loopTail
  cases lp.2 with
  | none => rfl
  | some e => cases e <;> rfl

theorem align_alloc_fallback_succeeds (malloc : Nat → Nat) (mem : Mem) (size b : Nat)
    (hb : (align_alloc (-1) malloc mem size).base = b) (hb0 : b ≠ 0)
    (hbP : b + 4096 < WORD) :
    (align_alloc (-1) malloc mem size).ret ≠ 0 ∧
    (align_alloc (-1) malloc mem size).ret % 4096 = 0 := by
  have h := align_alloc_ret (-1) 4096 12 malloc mem size b (Or.inr ⟨rfl, rfl⟩) (by norm_num)
    hb hb0 hbP
  have e : (2 : Nat) ^ 12 = 4096 := by norm_num
  rw [e] at h
  rw [h]
  constructor <;> omega

/-- Claim C9, amended. In mycat2, mycat3 and mycat4, when the page-size query of `main`
fails the run only closes the source and exits with status 1. The fallback to 4096 is
that of `align_alloc` alone (mycat3, mycat4). When its own query fails and that of `main`
(and `fstat`) did not, `align_alloc` behaves exactly as with a page size of 4096: it
returns a non-null pointer, a multiple of 4096, whenever `malloc` succeeds, and then the
run allocates that buffer and runs the transfer loop, and its exit status is decided by
the transfer alone: none while the loop still runs, 1 after a failed `write` or `read`, 0
at end of file; in particular a regular file is copied in full with status 0. -/
theorem page_query_failure_aborts (v : Variant) (env : Env) (fuel : Nat)
    (hv : v = Variant.v2 ∨ v = Variant.v3 ∨ v = Variant.v4)
    (h1 : env.argc = 2) (h2 : env.openRet ≠ -1) :
    (env.sysconf = -1 → run v env fuel = ⟨[Event.close], some 1⟩) ∧
    (v ≠ Variant.v2 → env.sysconf ≠ -1 → (v = Variant.v4 → env.fstat ≠ -1) →
      env.sysconfAlloc = -1 →
      (align_alloc 4096 env.malloc env.mem (bufSize v env)).ret ≠ 0 →
      run v env fuel
        = loopTail true
            [Event.alloc (bufSize v env)
              (align_alloc 4096 env.malloc env.mem (bufSize v env)).ret]
            [Event.release (align_alloc 4096 env.malloc env.mem (bufSize v env)).ret,
              Event.close]
            (transfer env (bufSize v env) fuel 0) ∧
      (run v env fuel).exit
        = (match (transfer env (bufSize v env) fuel 0).2 with
          | none => none
          | some LoopEnd.writeFailed => some 1
          | some (LoopEnd.condFalse r) => some (if r = -1 then 1 else 0)) ∧
      ∀ F, ReadsFile env (bufSize v env) F → WritesAll env → F.length < fuel →
        (run v env fuel).exit = some 0 ∧ stdout (run v env fuel).trace = F) ∧
    (env.sysconf ≠ -1 → env.sysconfAlloc = -1 →
      run v env fuel = run v (withAllocPageSize env 4096) fuel) ∧
    (∀ (malloc : Nat → Nat) (mem : Mem) (size : Nat),
      align_alloc (-1) malloc mem size = align_alloc 4096 malloc mem size) ∧
    (∀ (malloc : Nat → Nat) (mem : Mem) (size b : Nat),
      (align_alloc (-1) malloc mem size).base = b → b ≠ 0 → b + 4096 < WORD →
      (align_alloc (-1) malloc mem size).ret ≠ 0 ∧
      (align_alloc (-1) malloc mem size).ret % 4096 = 0) := by
  refine ⟨?_, ?_, ?_, align_alloc_fallback, align_alloc_fallback_succeeds⟩
  · intro hs
    rcases hv with rfl | rfl | rfl <;>
      simp [run, mycat2.main, mycat3.main, mycat4.main, h1, h2, hs, EXIT_FAILURE]
  · intro hv2 hs hf ha hp
    have hrun : run v env fuel
        = loopTail true
            [Event.alloc (bufSize v env)
              (align_alloc 4096 env.malloc env.mem (bufSize v env)).ret]
            [Event.release (align_alloc 4096 env.malloc env.mem (bufSize v env)).ret,
              Event.close]
            (transfer env (bufSize v env) fuel 0) := by
      rcases hv with rfl | rfl | rfl
      · exact absurd rfl hv2
      · simp only [bufSize] at hp ⊢
        simp [run, mycat3.main, h1, h2, hs, ha, align_alloc_fallback, hp,
          finish_eq_loopTail]
      · have hf2 := hf rfl
        simp only [bufSize] at hp ⊢
        simp [run, mycat4.main, h1, h2, hs, hf2, ha, align_alloc_fallback, hp,
          finish_eq_loopTail]
    refine ⟨hrun, ?_, ?_⟩
    · rw [hrun, loopTail_exit]
      cases (transfer env (bufSize v env) fuel 0).2 with
      | none => rfl
      | some e => cases e <;> simp
    · intro F hread hwrite hfuel
      have hc := transfer_copies env (bufSize v env) F hread hwrite fuel 0
        (by simp [filePos]; omega)
      rw [hrun]
      unfold loopTail
      simp [hc.1, stdout_append, hc.2, filePos, stdout]
  · intro hs ha
    rcases hv with rfl | rfl | rfl
    · simp only [run, mycat2.main, transfer_withAllocPageSize]
      rfl
    · simp only [run, mycat3.main, transfer_withAllocPageSize, ha, align_alloc_fallback]
      rfl
    · simp only [run, mycat4.main, transfer_withAllocPageSize, ha, align_alloc_fallback]
      rfl

/-- Instance of `page_query_failure_aborts`: mycat3 on a source holding `ABC`, once with
every page-size query failing, once with only the query of `align_alloc` failing. -/
theorem page_query_failure_aborts_witness :
    run Variant.v3 noPageSizeEnv 5 = ⟨[Event.close], some 1⟩ ∧
    (allocFallbackEnv.sysconf ≠ -1 ∧ allocFallbackEnv.sysconfAlloc = -1) ∧
    run Variant.v3 allocFallbackEnv 5
      = ⟨[Event.alloc 4096 69632, Event.read 4096 3, Event.write [65, 66, 67] 3,
          Event.read 4096 0, Event.release 69632, Event.close], some 0⟩ ∧
    run Variant.v3 allocFallbackEnv 5
      = loopTail true
          [Event.alloc (bufSize Variant.v3 allocFallbackEnv)
            (align_alloc 4096 allocFallbackEnv.malloc allocFallbackEnv.mem
              (bufSize Variant.v3 allocFallbackEnv)).ret]
          [Event.release (align_alloc 4096 allocFallbackEnv.malloc allocFallbackEnv.mem
              (bufSize Variant.v3 allocFallbackEnv)).ret, Event.close]
          (transfer allocFallbackEnv (bufSize Variant.v3 allocFallbackEnv) 5 0) :=
  ⟨(page_query_failure_aborts Variant.v3 noPageSizeEnv 5 (Or.inr (Or.inl rfl)) (by decide)
      (by decide)).1 rfl,
    ⟨by decide, by decide⟩, by decide,
    ((page_query_failure_aborts Variant.v3 allocFallbackEnv 5 (Or.inr (Or.inl rfl))
      (by decide) (by decide)).2.1 (by decide) (by decide) (fun h => by cases h) rfl
      (by decide)).1⟩
end Meowhw
